import Mathlib

/-!
Verification development for the pathdb embedded typed key-value store.

The definitions below are a shallow embedding of the Go sources:
  * the typed value codec (`serde`) from raw_tests.go,
  * the lazily-deserialized `Raw` view from raw.go,
  * the transactional path store (`tx.Put`, `tx.Delete`, `queryable.Get`,
    `queryable.List`) from unnamed/part_008,
  * the typed wrappers (`Mutate`, `PutIfAbsent`, `Get`, `RGet`) from
    db_interface.go,
  * the subscription engine (`Subscribe`, `onNewSubscription`,
    `onDeleteSubscription`, `onCommit`, `notifySubscribers`, `flush`) from
    unnamed/part_000.

Go byte slices and strings are modelled as `List Nat` of byte values,
machine integers as `Int` with explicit two's-complement conversion at the
encoding boundary, IEEE floats by their bit patterns (the codec only moves
bits), and Go interface values by the closed inductive `GoValue`.  Fallible
Go code returns `Except GoError`; code that can additionally panic (slice
indexing out of range, nil dereference, failing type assertions) returns
the three-valued `Outcome`.  The SQL engine is an external collaborator;
its operations on the `S_data`/`S_counters`/`S_fts2` tables are modelled
per the capability set in spec section 6 (unique primary key, ON CONFLICT
DO UPDATE, LIKE with the % wildcard, ORDER BY with memcmp byte order,
LIMIT/OFFSET).
-/

namespace Pathdb

/-- Go byte slices and strings: lists of byte values. -/
abbrev Bytes := List Nat

/-- Little-endian encoding of `n` into `w` bytes, as done by Go's
binary.LittleEndian Put functions. -/
def leBytes : Nat → Nat → Bytes
  | 0, _ => []
  | w + 1, n => n % 256 :: leBytes w (n / 256)

/-- Little-endian decoding of a byte list, as done by Go's
binary.LittleEndian Uint functions. -/
def leVal : Bytes → Nat
  | [] => 0
  | b :: bs => b + 256 * leVal bs

/-- Go conversion of a signed integer to an unsigned machine word of
`bits` bits (two's complement wrap-around). -/
def toUns (bits : Nat) (n : Int) : Nat := (n % ((2 : Int) ^ bits)).toNat

/-- Go reinterpretation of an unsigned `bits`-bit word as a signed integer
(two's complement). -/
def toSigned (bits : Nat) (w : Nat) : Int :=
  if w < 2 ^ (bits - 1) then (w : Int) else (w : Int) - (2 : Int) ^ bits

/-- One-byte category tags of the codec (raw_tests.go constants). -/
def tagTEXT : Nat := 84

def tagBYTEARRAY : Nat := 65

def tagBYTE : Nat := 50

def tagBOOLEAN : Nat := 66

def tagSHORT : Nat := 83

def tagINT : Nat := 73

def tagLONG : Nat := 76

def tagFLOAT : Nat := 70

def tagDOUBLE : Nat := 68

def tagPB : Nat := 80

def tagJSON : Nat := 74

/-- Go error values relevant to pathdb.  `wrap m e` models
fmt.Errorf with a %w verb; the SQL errors model what the external engine
reports. -/
inductive GoError where
  | errUnregisteredProtobufType
  | errUnregisteredJSONType
  | errUnknownDataType
  | errUnexpectedDBError
  | sqlUniqueConstraint (tableCol : String)
  | sqlOther (msg : String)
  | custom (msg : String)
  | wrap (msg : String) (inner : GoError)
  deriving Repr, DecidableEq

/-- The Error() string of a modelled Go error, as used by
strings.Contains in PutIfAbsent. -/
def GoError.errText : GoError → String
  | .errUnregisteredProtobufType => "unregistered protocol buffer type"
  | .errUnregisteredJSONType => "unregistered json type"
  | .errUnknownDataType => "unknown data type"
  | .errUnexpectedDBError => "unexpected database error"
  | .sqlUniqueConstraint tableCol => "UNIQUE constraint failed: " ++ tableCol
  | .sqlOther msg => msg
  | .custom msg => msg
  | .wrap msg inner => msg ++ ": " ++ inner.errText

/-- Does `pat` occur as a contiguous substring of `s`
(strings.Contains)? -/
def charsHasSub (pat : List Char) : List Char → Bool
  | [] => pat.isEmpty
  | c :: cs => pat.isPrefixOf (c :: cs) || charsHasSub pat cs

/-- strings.Contains. -/
def strContains (s pat : String) : Bool := charsHasSub pat.data s.data

/-- A Go value of one of the categories the codec accepts.  Floats are
represented by their IEEE bit patterns (math.Float32bits /
math.Float64bits); structured protobuf/json values by an abstract runtime
type identifier together with their marshalled body, since
proto.Marshal/json.Marshal are external and treated as a bijection per
registered type. -/
inductive GoValue where
  | str (s : Bytes)
  | bytes (b : Bytes)
  | byte (b : Nat)
  | bool (b : Bool)
  | int16 (n : Int)
  | int32 (n : Int)
  | int (n : Int)
  | int64 (n : Int)
  | float32 (bits : Nat)
  | float64 (bits : Nat)
  | proto (t : Nat) (body : Bytes)
  | json (t : Nat) (body : Bytes)
  deriving Repr, DecidableEq

/-- Well-formedness of a modelled Go value: byte components are in range
and machine integers are within the range of their Go type. -/
def GoValue.wf : GoValue → Prop
  | .str s => ∀ x ∈ s, x < 256
  | .bytes b => ∀ x ∈ b, x < 256
  | .byte b => b < 256
  | .bool _ => True
  | .int16 n => -32768 ≤ n ∧ n < 32768
  | .int32 n => -2147483648 ≤ n ∧ n < 2147483648
  | .int n => -9223372036854775808 ≤ n ∧ n < 9223372036854775808
  | .int64 n => -9223372036854775808 ≤ n ∧ n < 9223372036854775808
  | .float32 bits => bits < 4294967296
  | .float64 bits => bits < 18446744073709551616
  | .proto _ body => ∀ x ∈ body, x < 256
  | .json _ body => ∀ x ∈ body, x < 256

instance : DecidablePred GoValue.wf := by
  intro v
  cases v <;> simp only [GoValue.wf] <;> infer_instance

/-- The canonical form a value takes after a decode round-trip: the codec
serializes Go `int` with the LONG tag and decodes LONG as `int64`
(64-bit is the canonical integer width on decode); all other categories
decode to themselves. -/
def GoValue.canon : GoValue → GoValue
  | .int n => .int64 n
  | v => v

/-- Overwriting insert into an association list, modelling assignment to a
Go map key.  An existing binding is replaced in place, a new binding is
appended, so iteration order models a deterministic traversal. -/
def mapPut {κ α : Type} [BEq κ] (m : List (κ × α)) (k : κ) (v : α) : List (κ × α) :=
  if m.any (fun kv => kv.1 == k) then
    m.map (fun kv => if kv.1 == k then (k, v) else kv)
  else m ++ [(k, v)]

/-- Removal of a key from an association list, modelling Go's
delete(m, k). -/
def mapErase {κ α : Type} [BEq κ] (m : List (κ × α)) (k : κ) : List (κ × α) :=
  m.filter (fun kv => !(kv.1 == k))

/-- Adding an element to a Go set (map path→bool used as a set). -/
def setAdd {κ : Type} [BEq κ] (s : List κ) (k : κ) : List κ :=
  if s.contains k then s else s ++ [k]

/-- The codec's registration state: the two bidirectional tag⇄runtime-type
maps of the serde struct in raw_tests.go. -/
structure Serde where
  registeredProtocolBufferTypes : List (Nat × Int) := []
  registeredProtocolBufferTypeIDs : List (Int × Nat) := []
  registeredJSONTypes : List (Nat × Int) := []
  registeredJSONTypeIDs : List (Int × Nat) := []
  deriving Repr, DecidableEq

/-- newSerde(). -/
def newSerde : Serde := {}

/-- serde.register(id, example): the runtime type `t` is entered into the
protobuf maps iff the example implements proto.Message, else into the
JSON maps. -/
def Serde.register (s : Serde) (id : Int) (t : Nat) (isProtobuf : Bool) : Serde :=
  if isProtobuf then
    { s with registeredProtocolBufferTypes := mapPut s.registeredProtocolBufferTypes t id,
             registeredProtocolBufferTypeIDs := mapPut s.registeredProtocolBufferTypeIDs id t }
  else
    { s with registeredJSONTypes := mapPut s.registeredJSONTypes t id,
             registeredJSONTypeIDs := mapPut s.registeredJSONTypeIDs id t }

/-- serde.serialize from raw_tests.go.  Each branch emits the one-byte
category tag followed by the category-specific little-endian body; a
structured value whose runtime type is not registered yields the distinct
unregistered-type error for its category. -/
def Serde.serialize (s : Serde) (v : GoValue) : Except GoError Bytes :=
  match v with
  | .str t => .ok (tagTEXT :: t)
  | .bytes b => .ok (tagBYTEARRAY :: b)
  | .byte b => .ok [tagBYTE, b]
  | .bool b => .ok [tagBOOLEAN, if b then 1 else 0]
  | .int16 n => .ok (tagSHORT :: leBytes 2 (toUns 16 n))
  | .int32 n => .ok (tagINT :: leBytes 4 (toUns 32 n))
  | .int n => .ok (tagLONG :: leBytes 8 (toUns 64 n))
  | .int64 n => .ok (tagLONG :: leBytes 8 (toUns 64 n))
  | .float32 bits => .ok (tagFLOAT :: leBytes 4 bits)
  | .float64 bits => .ok (tagDOUBLE :: leBytes 8 bits)
  | .proto t body =>
    match s.registeredProtocolBufferTypes.lookup t with
    | none => .error .errUnregisteredProtobufType
    | some id => .ok (tagPB :: (leBytes 2 (toUns 16 id) ++ body))
  | .json t body =>
    match s.registeredJSONTypes.lookup t with
    | none => .error .errUnregisteredJSONType
    | some id => .ok (tagJSON :: (leBytes 2 (toUns 16 id) ++ body))

/-- serialize applied to a Go interface value that may be nil: a nil
interface falls through to the default branch of the type switch, where
the lookup of reflect.TypeOf(nil) in the JSON map misses. -/
def Serde.serializeVal (s : Serde) : Option GoValue → Except GoError Bytes
  | none => .error .errUnregisteredJSONType
  | some v => s.serialize v

/-- Result of running Go code that can return normally, return an error,
or panic at runtime. -/
inductive Outcome (α : Type) where
  | ok (val : α)
  | fail (e : GoError)
  | panics
  deriving Repr, DecidableEq

/-- serde.deserialize from raw_tests.go.  Branches mirror the Go switch on
b[0]; every slice access that Go would perform on a too-short input is an
index-out-of-range panic, modelled by `Outcome.panics`: b[0] on an empty
slice, b[1] for the BYTE and BOOLEAN categories, and the bounds checks of
binary.LittleEndian.Uint16/Uint32/Uint64 on b[1:]. -/
def Serde.deserialize (s : Serde) (b : Bytes) : Outcome GoValue :=
  match b with
  | [] => .panics
  | tag :: rest =>
    if tag = tagTEXT then .ok (.str rest)
    else if tag = tagBYTEARRAY then .ok (.bytes rest)
    else if tag = tagBYTE then
      match rest with
      | [] => .panics
      | x :: _ => .ok (.byte x)
    else if tag = tagBOOLEAN then
      match rest with
      | [] => .panics
      | x :: _ => .ok (.bool (x = 1))
    else if tag = tagSHORT then
      if rest.length < 2 then .panics
      else .ok (.int16 (toSigned 16 (leVal (rest.take 2))))
    else if tag = tagINT then
      if rest.length < 4 then .panics
      else .ok (.int32 (toSigned 32 (leVal (rest.take 4))))
    else if tag = tagLONG then
      if rest.length < 8 then .panics
      else .ok (.int64 (toSigned 64 (leVal (rest.take 8))))
    else if tag = tagFLOAT then
      if rest.length < 4 then .panics
      else .ok (.float32 (leVal (rest.take 4)))
    else if tag = tagDOUBLE then
      if rest.length < 8 then .panics
      else .ok (.float64 (leVal (rest.take 8)))
    else if tag = tagPB then
      if rest.length < 2 then .panics
      else
        match s.registeredProtocolBufferTypeIDs.lookup (toSigned 16 (leVal (rest.take 2))) with
        | none => .fail .errUnregisteredProtobufType
        | some t => .ok (.proto t (rest.drop 2))
    else if tag = tagJSON then
      if rest.length < 2 then .panics
      else
        match s.registeredJSONTypeIDs.lookup (toSigned 16 (leVal (rest.take 2))) with
        | none => .fail .errUnregisteredJSONType
        | some t => .ok (.json t (rest.drop 2))
    else .fail .errUnknownDataType

/-- The Raw[T] struct from raw.go, specialised to T = any: the raw stored
bytes plus the memoised deserialization outcome. -/
structure RawAny where
  bytes : Bytes
  loaded : Bool := false
  value : Option GoValue := none
  err : Option GoError := none
  deriving Repr, DecidableEq

/-- Raw.Value() from raw.go: on the first call deserialize the bytes and
cache the outcome (value or error); later calls return the cache.  The
result carries the returned (value, error) pair together with the mutated
receiver.  A panic inside deserialize propagates. -/
def rawValue (sd : Serde) (r : RawAny) : Outcome (Option GoValue × Option GoError × RawAny) :=
  if r.loaded then .ok (r.value, r.err, r)
  else
    match sd.deserialize r.bytes with
    | .panics => .panics
    | .fail e => .ok (r.value, some e, { r with err := some e, loaded := true })
    | .ok v => .ok (some v, none, { r with value := some v, err := none, loaded := true })

/-- The registration precondition for structured values: the runtime type
is registered (its id is a Go int16), and the two bidirectional maps agree
on it, as they do after serde.register calls with distinct ids and types. -/
def Serde.structOK (s : Serde) : GoValue → Prop
  | .proto t _ => ∃ id, s.registeredProtocolBufferTypes.lookup t = some id ∧
      -32768 ≤ id ∧ id < 32768 ∧ s.registeredProtocolBufferTypeIDs.lookup id = some t
  | .json t _ => ∃ id, s.registeredJSONTypes.lookup t = some id ∧
      -32768 ≤ id ∧ id < 32768 ∧ s.registeredJSONTypeIDs.lookup id = some t
  | _ => True

/-- A row of the S_data table: TEXT path (stored as the serialized path
bytes), BLOB value, and the nullable manually managed rowid. -/
structure DataRow where
  path : Bytes
  value : Bytes
  rowid : Option Int := none
  deriving Repr, DecidableEq

/-- The persistent SQL state per schema: the S_data rows, the S_counters
row with id = 0, and the S_fts2 rows keyed by rowid.  Modelled from the
SQL engine capabilities of spec section 6. -/
structure SQLState where
  data : List DataRow := []
  counter : Option Int := none
  fts : List (Int × Bytes) := []
  deriving Repr, DecidableEq

/-- Does a data row with this (serialized) path exist?  Path is the
table's PRIMARY KEY. -/
def dataHas (st : SQLState) (p : Bytes) : Bool :=
  st.data.any (fun r => r.path == p)

/-- SELECT value FROM S_data WHERE path = ?. -/
def dataSelectValue (st : SQLState) (p : Bytes) : Option Bytes :=
  (st.data.find? (fun r => r.path == p)).map (fun r => r.value)

/-- SELECT rowid FROM S_data WHERE path = ? (some none = a row whose
rowid column is NULL). -/
def dataSelectRowid (st : SQLState) (p : Bytes) : Option (Option Int) :=
  (st.data.find? (fun r => r.path == p)).map (fun r => r.rowid)

/-- INSERT INTO S_data(path, value[, rowid]) VALUES(...), optionally with
ON CONFLICT(path) DO UPDATE SET value = EXCLUDED.value.  Without the
conflict clause a duplicate path raises the engine's unique-constraint
error; with it, only the value column of the existing row is replaced
(its rowid is kept). -/
def dataInsert (st : SQLState) (schema : String) (p v : Bytes) (rid : Option Int)
    (onConflictUpdate : Bool) : Except GoError SQLState :=
  if dataHas st p then
    if onConflictUpdate then
      .ok { st with data := st.data.map (fun r => if r.path == p then { r with value := v } else r) }
    else .error (.sqlUniqueConstraint (schema ++ "_data.path"))
  else .ok { st with data := st.data ++ [{ path := p, value := v, rowid := rid }] }

/-- DELETE FROM S_data WHERE path = ?. -/
def dataDelete (st : SQLState) (p : Bytes) : SQLState :=
  { st with data := st.data.filter (fun r => !(r.path == p)) }

/-- The counter value after the upsert: 0 when the counter row was
absent, else incremented by one. -/
def nextCounter (st : SQLState) : Int :=
  match st.counter with
  | none => 0
  | some n => n + 1

/-- INSERT INTO S_counters(id, value) VALUES(0, 0) ON CONFLICT(id) DO
UPDATE SET value = value + 1. -/
def counterUpsert (st : SQLState) : SQLState :=
  { st with counter := some (nextCounter st) }

/-- UPDATE S_fts2 SET value = ? WHERE rowid = ?. -/
def ftsUpdate (st : SQLState) (rid : Int) (text : Bytes) : SQLState :=
  { st with fts := st.fts.map (fun kv => if kv.1 == rid then (rid, text) else kv) }

/-- INSERT INTO S_fts2(value, rowid) VALUES(?, ?). -/
def ftsInsert (st : SQLState) (rid : Int) (text : Bytes) : SQLState :=
  { st with fts := st.fts ++ [(rid, text)] }

/-- The Item struct of db_interface.go with a Raw[any] value, as stored
in a transaction's updates map. -/
structure ItemRawAny where
  path : Bytes
  detailPath : Bytes := []
  value : Option RawAny := none
  deriving Repr, DecidableEq

/-- The tx struct from unnamed/part_008: the underlying SQL transaction's
view of the store (a SQLite transaction reads its own writes) plus the
two in-memory buffers keyed by the Go string path. -/
structure TxState where
  schema : String
  serde : Serde
  sql : SQLState
  updates : List (Bytes × ItemRawAny) := []
  deletes : List Bytes := []
  deriving Repr, DecidableEq

/-- tx.Delete from part_008: serialize the path, DELETE the data row
(intentionally leaving any FTS row), remove any pending update for the
path and record the delete. -/
def txDelete (t : TxState) (p : Bytes) : Except GoError TxState :=
  .ok { t with sql := dataDelete t.sql (tagTEXT :: p),
               updates := mapErase t.updates p,
               deletes := setAdd t.deletes p }

/-- tx.Put from part_008.  A nil value with nil pre-serialized bytes
degrades to Delete.  Otherwise the path and (unless supplied) the value
are serialized, the data row is inserted (with the ON CONFLICT DO UPDATE
clause iff updateIfPresent), and for a non-empty fullText the FTS row is
maintained: an existing row keeps its rowid and has its FTS row updated,
a new row allocates the next rowid from counter 0 and inserts an FTS row.
saveUpdate records the update in the updates map and removes any pending
delete; as in the source, the new-row full-text branch returns without
calling saveUpdate.  Scanning a NULL rowid into the Go int destination
fails, per the database/sql harness the repository tests use. -/
def txPut (t : TxState) (p : Bytes) (value : Option GoValue) (serializedValue : Option Bytes)
    (fullText : Bytes) (updateIfPresent : Bool) : Except GoError TxState :=
  if value = none ∧ serializedValue = none then
    match txDelete t p with
    | .error e => .error (.wrap "put: delete" e)
    | .ok t1 => .ok t1
  else
    let sPath := tagTEXT :: p
    match (match serializedValue, value with
           | some b, _ => Except.ok b
           | none, some v => t.serde.serialize v
           | none, none => Except.ok []) with
    | .error e => .error (.wrap "put: serialize value" e)
    | .ok sv =>
      let saveUpdate : TxState → TxState := fun t1 =>
        { t1 with
          deletes := t1.deletes.filter (fun q => !(q == p)),
          updates := mapPut t1.updates p
            { path := p,
              value := some { bytes := sv, loaded := value.isSome, value := value } } }
      if fullText = [] then
        match dataInsert t.sql t.schema sPath sv none updateIfPresent with
        | .error e => .error (.wrap "put: insert" e)
        | .ok st => .ok (saveUpdate { t with sql := st })
      else
        match dataSelectRowid t.sql sPath with
        | some none =>
          .error (.wrap "put: scan rowid" (.sqlOther "converting NULL to int is unsupported"))
        | some (some rid) =>
          match dataInsert t.sql t.schema sPath sv (some rid) updateIfPresent with
          | .error e => .error (.wrap "put: insert indexed value" e)
          | .ok st => .ok (saveUpdate { t with sql := ftsUpdate st rid fullText })
        | none =>
          match (counterUpsert t.sql).counter with
          | none => .error (.wrap "put: read sequence value" .errUnexpectedDBError)
          | some rid =>
            match dataInsert (counterUpsert t.sql) t.schema sPath sv (some rid)
                updateIfPresent with
            | .error e => .error (.wrap "put: insert indexed value" e)
            | .ok st => .ok { t with sql := ftsInsert st rid fullText }

/-- queryable.Get from part_008: serialize the path, SELECT the value,
nil result with nil error when the row is absent. -/
def qGet (st : SQLState) (p : Bytes) : Except GoError (Option Bytes) :=
  .ok (dataSelectValue st (tagTEXT :: p))

/-- RGet from db_interface.go: wrap the fetched bytes (if non-empty) in
an unloaded Raw. -/
def rGet (st : SQLState) (p : Bytes) : Except GoError (Option RawAny) :=
  match qGet st p with
  | .error e => .error (.wrap "rget: get" e)
  | .ok none => .ok none
  | .ok (some b) => .ok (if b.length > 0 then some { bytes := b } else none)

/-- Get[T] from db_interface.go: RGet then Raw.Value; an absent path
yields the zero value with a nil error. -/
def typedGet (sd : Serde) (st : SQLState) (p : Bytes) : Outcome (Option GoValue) :=
  match rGet st p with
  | .error e => .fail (.wrap "get: rget" e)
  | .ok none => .ok none
  | .ok (some r) =>
    match rawValue sd r with
    | .panics => .panics
    | .fail e => .fail e
    | .ok (_, some e, _) => .fail (.wrap "get: value" e)
    | .ok (v, none, _) => .ok v

/-- The db struct: its committed SQL state (what non-transactional
queryables see), schema and serde. -/
structure DBState where
  schema : String
  serde : Serde
  committed : SQLState
  deriving Repr, DecidableEq

/-- db.Begin: a fresh transaction with empty buffers whose SQL view
starts from the committed state. -/
def dbBegin (d : DBState) : TxState :=
  { schema := d.schema, serde := d.serde, sql := d.committed }

/-- The effect of tx.Commit on the database: the commit request is
processed by the event loop, whose doCommit commits the underlying SQL
transaction, publishing the transaction's SQL view. -/
def commitTx (d : DBState) (t : TxState) : DBState :=
  { d with committed := t.sql }

/-- Get[T] on the db (the committed state). -/
def dbGet (d : DBState) (p : Bytes) : Outcome (Option GoValue) :=
  typedGet d.serde d.committed p

/-- Mutate from db_interface.go: begin a transaction, run fn; on a nil
error commit, else roll back, with the rollback error (if any) superseding
fn's error.  The external SQL rollback's outcome is the parameter
rollbackErr; rolling back never publishes the transaction's writes either
way.  The commit path goes through the event loop and publishes the
transaction's SQL view. -/
def mutate (d : DBState) (rollbackErr : Option GoError)
    (fn : TxState → TxState × Option GoError) : DBState × Option GoError :=
  let r := fn (dbBegin d)
  match r.2 with
  | none => (commitTx d r.1, none)
  | some e =>
    match rollbackErr with
    | some re => (d, some (.wrap "mutate: rollback transaction" re))
    | none => (d, some (.wrap "mutate: fn" e))

/-- PutIfAbsent from db_interface.go: Put with updateIfPresent = false;
an error whose text contains "UNIQUE constraint failed" means a value was
already present and yields (didPut = false, nil error); other errors are
wrapped and surfaced.  In every error path of the embedded Put reachable
here, no state was mutated before the failure, so the original
transaction state is returned alongside. -/
def putIfAbsent (t : TxState) (p : Bytes) (v : GoValue) (ft : Bytes) :
    TxState × Bool × Option GoError :=
  match txPut t p (some v) none ft false with
  | .error e =>
    if strContains e.errText "UNIQUE constraint failed" then (t, false, none)
    else (t, false, some (.wrap "putifabsent: put" e))
  | .ok t1 => (t1, true, none)

/-- A transaction open on a database whose row at path [112] was stored
without full text, so its rowid column is NULL. -/
def c7NullRowidTx : TxState :=
  { schema := "test", serde := newSerde,
    sql := { data := [{ path := [84, 112], value := [84, 120], rowid := none }] } }

/-- A transaction open on a database whose row at path [112] is full-text
indexed (rowid 5). -/
def c7OccupiedTx : TxState :=
  { schema := "test", serde := newSerde,
    sql := { data := [{ path := [84, 112], value := [84, 120], rowid := some 5 }] } }

/-- SQL LIKE matching over the stored byte strings (spec section 6: LIKE
with the % wildcard; _ matches a single byte).  Paths are bound as BLOBs,
so comparison is byte-wise. -/
def likeMatch : Bytes → Bytes → Bool
  | [], [] => true
  | [], _ :: _ => false
  | c :: ps, s =>
    if c = 37 then
      likeMatch ps s ||
        (match s with
         | [] => false
         | _ :: s2 => likeMatch (37 :: ps) s2)
    else
      match s with
      | [] => false
      | x :: s2 => (c = 95 || x = c) && likeMatch ps s2
termination_by pat s => pat.length + s.length

/-- memcmp order on byte strings: how the SQL engine compares the BLOB
path values for ORDER BY. -/
def bytesLe : Bytes → Bytes → Bool
  | [], _ => true
  | _ :: _, [] => false
  | a :: as, b :: bs => if a < b then true else if b < a then false else bytesLe as bs

/-- The item record materialised by queryable.List (part_008): Go string
path and detail path plus the raw value bytes and the snippet. -/
structure QueryItem where
  path : Bytes
  detailPath : Bytes := []
  value : Bytes := []
  snippet : Bytes := []
  deriving Repr, DecidableEq

/-- QueryParams from part_008. -/
structure QueryParams where
  path : Bytes
  start : Int := 0
  count : Int := 0
  reverseSort : Bool := false
  joinDetails : Bool := false
  includeEmptyDetails : Bool := false
  deriving Repr, DecidableEq

/-- QueryParams.ApplyDefaults: a zero count becomes the maximum positive
int32. -/
def applyDefaults (q : QueryParams) : QueryParams :=
  if q.count = 0 then { q with count := 2147483647 } else q

/-- LIMIT/OFFSET paging as the SQL engine applies it: a negative OFFSET
counts as zero, a negative LIMIT as no limit. -/
def sqlPage {α : Type} (l : List α) (limit offset : Int) : List α :=
  let l2 := l.drop (if offset < 0 then 0 else offset.toNat)
  if limit < 0 then l2 else l2.take limit.toNat

/-- Scanning and materialising one result row of queryable.List: the path
(and the detail path, when the query joined details) is deserialized with
the codec and type-asserted to a Go string; a failing assertion is a
runtime panic. -/
def scanRow (sd : Serde) (path0 : Bytes) (detail0 : Option Bytes) (v : Bytes) :
    Outcome QueryItem :=
  match sd.deserialize path0 with
  | .panics => .panics
  | .fail e => .fail (.wrap "list: deserialize path" e)
  | .ok (.str s) =>
    match detail0 with
    | none => .ok { path := s, value := v }
    | some dp0 =>
      match sd.deserialize dp0 with
      | .panics => .panics
      | .fail e => .fail (.wrap "list: deserialize detail path" e)
      | .ok (.str ds) => .ok { path := s, detailPath := ds, value := v }
      | .ok _ => .panics
  | .ok _ => .panics

/-- The scan loop of queryable.List over the returned rows. -/
def scanRows (sd : Serde) : List (Bytes × Option Bytes × Bytes) → Outcome (List QueryItem)
  | [] => .ok []
  | (p0, d0, v) :: rest =>
    match scanRow sd p0 d0 v with
    | .panics => .panics
    | .fail e => .fail e
    | .ok it =>
      match scanRows sd rest with
      | .panics => .panics
      | .fail e => .fail e
      | .ok its => .ok (it :: its)

/-- queryable.List from part_008 for the non-search case (search == nil).
The path is serialized to the LIKE pattern, defaults are applied, and the
SQL engine evaluates
SELECT path, value FROM S_data WHERE path LIKE ? ORDER BY path ASC|DESC
LIMIT ? OFFSET ?, or with JoinDetails the self-join on l.value = d.path
restricted to text-tagged values (LEFT OUTER when IncludeEmptyDetails);
the rows are then materialised via the codec.  The full-text search
branch queries the external FTS engine and is outside this model. -/
def queryableList (sd : Serde) (st : SQLState) (q0 : QueryParams) :
    Outcome (List QueryItem) :=
  let pattern := tagTEXT :: q0.path
  let q := applyDefaults q0
  if q.joinDetails then
    let ls := st.data.filter
      (fun l => likeMatch pattern l.path && l.value.head? == some tagTEXT)
    let sorted := if q.reverseSort then
        ls.insertionSort (fun a b => bytesLe b.path a.path = true)
      else ls.insertionSort (fun a b => bytesLe a.path b.path = true)
    let tuples := sorted.flatMap (fun l =>
      match st.data.find? (fun d => d.path == l.value) with
      | some d => [(l.path, some l.value, d.value)]
      | none =>
        if q.includeEmptyDetails then [(l.path, some l.value, ([] : Bytes))] else [])
    scanRows sd (sqlPage tuples q.count q.start)
  else
    let rows := st.data.filter (fun r => likeMatch pattern r.path)
    let sorted := if q.reverseSort then
        rows.insertionSort (fun a b => bytesLe b.path a.path = true)
      else rows.insertionSort (fun a b => bytesLe a.path b.path = true)
    scanRows sd (sqlPage (sorted.map (fun r => (r.path, none, r.value))) q.count q.start)

/-- The prefix-list result as the spec words it (spec sections 4.3 and 8,
claim C8): the rows whose path matches the LIKE pattern, ordered by path
ascending (or descending under reverse_sort), skipping the first start
rows and returning at most count rows, count defaulting to the maximum
positive int32 when unset.  Stated over the logical (unserialized) paths,
which are the stored paths without their leading text tag. -/
def listSpec (st : SQLState) (q0 : QueryParams) : List QueryItem :=
  let cnt := if q0.count = 0 then (2147483647 : Int) else q0.count
  let matching := st.data.filter (fun r => likeMatch q0.path r.path.tail)
  let sorted := if q0.reverseSort then
      matching.insertionSort (fun a b => bytesLe b.path.tail a.path.tail = true)
    else matching.insertionSort (fun a b => bytesLe a.path.tail b.path.tail = true)
  ((sorted.drop q0.start.toNat).take cnt.toNat).map
    (fun r => { path := r.path.tail, value := r.value })

/-- A small concrete store: two rows with serialized paths b and a. -/
def c8St : SQLState :=
  { data := [{ path := [84, 98], value := [84, 120], rowid := none },
             { path := [84, 97], value := [84, 121], rowid := none }] }

/-- A concrete match-all prefix query with default paging. -/
def c8Query : QueryParams := { path := [37] }

/-- The events the event loop's commit processing produces, in order:
each subscriber notification of the two passes, each change-set delivery
(flush calling OnUpdate), and the SQL commit of the transaction. -/
inductive Ev where
  | notifyUpdate (id : String) (path : Bytes) (isDetail : Bool)
  | notifyDelete (id : String) (path : Bytes) (isDetail : Bool)
  | onUpdateCall (id : String) (ups : List (Bytes × ItemRawAny)) (dels : List Bytes)
  | sqlCommit
  deriving Repr, DecidableEq

def isFlushEv : Ev → Bool
  | .onUpdateCall _ _ _ => true
  | _ => false

def isCommitEv : Ev → Bool
  | .sqlCommit => true
  | _ => false

/-- The ordering claim C5 states: in the commit processing's event trace,
the SQL commit precedes every change-set flush. -/
def commitsPrecedeFlushes (tr : List Ev) : Prop :=
  tr.filter (fun ev => isFlushEv ev || isCommitEv ev)
    = tr.filter isCommitEv ++ tr.filter isFlushEv

/-- strings.TrimRight(prefix, "%"): strip all trailing % wildcard bytes
before registering a subscription prefix. -/
def trimTrailingPct (p : Bytes) : Bytes :=
  ((p.reverse).dropWhile (fun c => c == 37)).reverse

/-- The caller-facing Subscription[T] record (id, prefixes, flags). -/
structure SubSpec where
  id : String
  pathPfxs : List Bytes
  joinDetails : Bool := false
  receiveInitial : Bool := false
  deriving Repr, DecidableEq

/-- The internal subscription object built by Subscribe: the adapted
callbacks close over a current ChangeSet (csUpdates/csDeletes) and the
reverseDetailPaths map; this structure is that closure state. -/
structure SubState where
  id : String
  pathPfxs : List Bytes
  joinDetails : Bool
  receiveInitial : Bool
  csUpdates : List (Bytes × ItemRawAny) := []
  csDeletes : List Bytes := []
  reverseDetailPaths : List (Bytes × Bytes) := []
  deriving Repr, DecidableEq

/-- The db's event-loop-owned state: committed SQL state, the two
patricia tries of prefix → bucket (a bucket maps subscriber ids to the
shared subscription object, modelled through the central subsById heap),
and the serde. -/
structure EngineState where
  schema : String
  serde : Serde
  committed : SQLState
  subsById : List (String × SubState) := []
  byPath : List (Bytes × List String) := []
  byDetail : List (Bytes × List String) := []
  deriving Repr, DecidableEq

/-- Insert a subscriber id into the bucket at a trie prefix, creating the
bucket node on demand (doGetOrCreateSubscriptionsByPath followed by the
map assignment). -/
def trieAdd (trie : List (Bytes × List String)) (key : Bytes) (sid : String) :
    List (Bytes × List String) :=
  if trie.any (fun kv => kv.1 == key) then
    trie.map (fun kv => if kv.1 == key then (kv.1, setAdd kv.2 sid) else kv)
  else trie ++ [(key, [sid])]

/-- patricia Trie.VisitPrefixes(path): the nodes whose prefix is a prefix
of the path.  (The patricia trie visits shortest-first; the claims here do
not depend on visit order, so node list order stands in for it.) -/
def visitPfxs (trie : List (Bytes × List String)) (path : Bytes) :
    List (Bytes × List String) :=
  trie.filter (fun kv => kv.1.isPrefixOf path)

/-- newRawItem: wrap a listed row into an Item with an unloaded Raw
(value nil when the scanned bytes are empty). -/
def newRawItem (it : QueryItem) : ItemRawAny :=
  { path := it.path, detailPath := it.detailPath,
    value := if it.value.length > 0 then some { bytes := it.value } else none }

/-- The subscription object Subscribe builds: prefixes stripped of
trailing % wildcards, empty change-set. -/
def mkSubState (sub : SubSpec) : SubState :=
  { id := sub.id, pathPfxs := sub.pathPfxs.map trimTrailingPct,
    joinDetails := sub.joinDetails, receiveInitial := sub.receiveInitial }

/-- The adapted onUpdate closure from Subscribe (part_000): record the
reverse detail binding, drop initial items the subscriber did not ask
for, drop items whose Raw pointer is nil, rekey detail notifications via
reverseDetailPaths, and store the item in the accumulated change-set. -/
def subOnUpdate (s : SubState) (u : ItemRawAny) (initial isDetail : Bool) : SubState :=
  let s1 := if s.joinDetails && !isDetail then
      { s with reverseDetailPaths := mapPut s.reverseDetailPaths u.detailPath u.path }
    else s
  if initial && !s1.receiveInitial then s1
  else
    match u.value with
    | none => s1
    | some raw =>
      let pd : Bytes × Bytes :=
        if isDetail then (((s1.reverseDetailPaths.lookup u.path).getD []), u.path)
        else (u.path, u.detailPath)
      let it : ItemRawAny := { path := pd.1, detailPath := pd.2, value := some raw }
      { s1 with csUpdates := mapPut s1.csUpdates pd.1 it }

/-- The adapted onDelete closure: record the deleted path (rekeyed via
reverseDetailPaths for detail notifications) in the change-set. -/
def subOnDelete (s : SubState) (p : Bytes) (isDetail : Bool) : SubState :=
  if isDetail then
    { s with csDeletes := setAdd s.csDeletes ((s.reverseDetailPaths.lookup p).getD []) }
  else { s with csDeletes := setAdd s.csDeletes p }

/-- Is the accumulated change-set non-empty? -/
def csNonempty (s : SubState) : Bool :=
  s.csUpdates.length > 0 || s.csDeletes.length > 0

/-- The flush closure: deliver the accumulated ChangeSet through
OnUpdate exactly when it is non-empty, then start a fresh one.  The
emitted event records the delivery. -/
def subFlush (s : SubState) : SubState × List Ev :=
  if csNonempty s then
    ({ s with csUpdates := [], csDeletes := [] },
     [.onUpdateCall s.id s.csUpdates s.csDeletes])
  else (s, [])

/-- The body of onNewSubscription's initial-items loop: deliver one
initial item to the subscription and, for JoinDetails, register the
subscriber in the detail trie under the item's detail path. -/
def subscribeAbsorb (sid : String) (jd : Bool) (acc : EngineState) (it : ItemRawAny) :
    EngineState :=
  let acc2 := match acc.subsById.lookup sid with
    | none => acc
    | some s => { acc with subsById := mapPut acc.subsById sid (subOnUpdate s it true false) }
  if jd then { acc2 with byDetail := trieAdd acc2.byDetail it.detailPath sid } else acc2

/-- The prefix keys registered in a trie. -/
def keysOf (trie : List (Bytes × List String)) : List Bytes := trie.map Prod.fst

/-- One prefix of onNewSubscription: insert the subscriber into the
prefix trie; when ReceiveInitial or JoinDetails is set, list the current
values under the prefix (joining details, including empty ones), feed
them to onUpdate as initial items, register detail-trie entries for
JoinDetails, and flush.  A panic while materialising the listing crashes
the loop (none). -/
def subscribeStep (e : EngineState) (sid : String) (jd ri : Bool) (pfx : Bytes) :
    Option EngineState :=
  let e1 := { e with byPath := trieAdd e.byPath pfx sid }
  if ri || jd then
    match queryableList e1.serde e1.committed
        { path := pfx ++ [37], joinDetails := jd, includeEmptyDetails := true } with
    | .panics => none
    | .fail _ => some e1
    | .ok items =>
      let e2 := (items.map newRawItem).foldl (subscribeAbsorb sid jd) e1
      some (match e2.subsById.lookup sid with
        | none => e2
        | some s => { e2 with subsById := mapPut e2.subsById sid (subFlush s).1 })
  else some e1

/-- The loop of onNewSubscription over the subscription's prefixes. -/
def subscribeFold (sid : String) (jd ri : Bool) :
    EngineState → List Bytes → Option EngineState
  | e, [] => some e
  | e, p :: rest =>
    match subscribeStep e sid jd ri p with
    | none => none
    | some e2 => subscribeFold sid jd ri e2 rest

/-- Subscribe + onNewSubscription: build the adapted subscription (with
%-stripped prefixes) and register it under every prefix. -/
def onNewSubscription (e : EngineState) (sub : SubSpec) : Option EngineState :=
  let s0 := mkSubState sub
  subscribeFold s0.id s0.joinDetails s0.receiveInitial
    { e with subsById := mapPut e.subsById s0.id s0 } s0.pathPfxs

/-- onDeleteSubscription from part_000: visit every bucket of both tries
and delete the id; bucket nodes are left in place even when emptied. -/
def onDeleteSubscription (e : EngineState) (sid : String) : EngineState :=
  { e with
    byPath := e.byPath.map (fun kv => (kv.1, kv.2.filter (fun i => !(i == sid)))),
    byDetail := e.byDetail.map (fun kv => (kv.1, kv.2.filter (fun i => !(i == sid)))) }

/-- The inner subscriber loop of notifySubscribers for one updated path:
for a join-details subscription in the main pass, decode the item value
as the detail path (skipping on a decode failure or a non-string value;
dereferencing an item whose Raw was nulled by an earlier subscriber's
missing detail is a runtime panic), register the detail-trie binding,
fetch the detail row inside the transaction and deliver it; otherwise
deliver the item as-is.  Every delivery marks the subscription dirty.
The shared item u is mutated (Raw memoisation, detail substitution) and
threaded through. -/
def notifyIdsUpd (txSql : SQLState) (isDetail : Bool) (path : Bytes) :
    EngineState → ItemRawAny → List String → List Ev → List String →
    Option (EngineState × ItemRawAny × List String × List Ev)
  | e, u, dirty, evs, [] => some (e, u, dirty, evs)
  | e, u, dirty, evs, sid :: rest =>
    match e.subsById.lookup sid with
    | none => notifyIdsUpd txSql isDetail path e u dirty evs rest
    | some s =>
      if s.joinDetails && !isDetail then
        match u.value with
        | none => none
        | some raw =>
          match rawValue e.serde raw with
          | .panics => none
          | .fail _ => notifyIdsUpd txSql isDetail path e u dirty evs rest
          | .ok (v2, err2, raw2) =>
            let u2 := { u with value := some raw2 }
            match err2, v2 with
            | none, some (.str dp) =>
              let e2 := { e with byDetail := trieAdd e.byDetail dp sid }
              match rGet txSql dp with
              | .error _ => notifyIdsUpd txSql isDetail path e2 u2 dirty evs rest
              | .ok detail =>
                let u3 := { u2 with value := detail, detailPath := dp }
                notifyIdsUpd txSql isDetail path
                  { e2 with subsById := mapPut e2.subsById sid (subOnUpdate s u3 false isDetail) }
                  u3 (setAdd dirty sid) (evs ++ [.notifyUpdate sid path isDetail]) rest
            | _, _ => notifyIdsUpd txSql isDetail path e u2 dirty evs rest
      else
        notifyIdsUpd txSql isDetail path
          { e with subsById := mapPut e.subsById sid (subOnUpdate s u false isDetail) }
          u (setAdd dirty sid) (evs ++ [.notifyUpdate sid path isDetail]) rest

/-- The loop of notifySubscribers over the transaction's updates map; the
mutated items are written back (the Go map holds pointers). -/
def notifyPathsUpd (txSql : SQLState) (isDetail : Bool) :
    EngineState → List (Bytes × ItemRawAny) → List String → List Ev →
    Option (EngineState × List (Bytes × ItemRawAny) × List String × List Ev)
  | e, [], dirty, evs => some (e, [], dirty, evs)
  | e, (p, u) :: rest, dirty, evs =>
    let ids := (visitPfxs (if isDetail then e.byDetail else e.byPath) p).flatMap
      (fun kv => kv.2)
    match notifyIdsUpd txSql isDetail p e u dirty evs ids with
    | none => none
    | some (e1, u1, d1, ev1) =>
      match notifyPathsUpd txSql isDetail e1 rest d1 ev1 with
      | none => none
      | some (e2, rest2, d2, ev2) => some (e2, (p, u1) :: rest2, d2, ev2)

/-- The inner subscriber loop for one deleted path. -/
def notifyIdsDel (isDetail : Bool) (path : Bytes) :
    EngineState → List String → List Ev → List String →
    EngineState × List String × List Ev
  | e, dirty, evs, [] => (e, dirty, evs)
  | e, dirty, evs, sid :: rest =>
    match e.subsById.lookup sid with
    | none => notifyIdsDel isDetail path e dirty evs rest
    | some s =>
      notifyIdsDel isDetail path
        { e with subsById := mapPut e.subsById sid (subOnDelete s path isDetail) }
        (setAdd dirty sid) (evs ++ [.notifyDelete sid path isDetail]) rest

/-- The loop of notifySubscribers over the transaction's deletes set. -/
def notifyPathsDel (isDetail : Bool) :
    EngineState → List Bytes → List String → List Ev →
    EngineState × List String × List Ev
  | e, [], dirty, evs => (e, dirty, evs)
  | e, p :: rest, dirty, evs =>
    let ids := (visitPfxs (if isDetail then e.byDetail else e.byPath) p).flatMap
      (fun kv => kv.2)
    let r := notifyIdsDel isDetail p e dirty evs ids
    notifyPathsDel isDetail r.1 rest r.2.1 r.2.2

/-- db.notifySubscribers: the updates loop then the deletes loop over one
trie. -/
def notifySubscribersM (txSql : SQLState) (isDetail : Bool) (e : EngineState)
    (ups : List (Bytes × ItemRawAny)) (dels : List Bytes)
    (dirty : List String) (evs : List Ev) :
    Option (EngineState × List (Bytes × ItemRawAny) × List String × List Ev) :=
  match notifyPathsUpd txSql isDetail e ups dirty evs with
  | none => none
  | some (e1, ups1, d1, ev1) =>
    let r := notifyPathsDel isDetail e1 dels d1 ev1
    some (r.1, ups1, r.2.1, r.2.2)

/-- db.onCommit's two notification passes: the main trie pass, then the
detail trie pass over the (by now mutated) updates. -/
def runPasses (e : EngineState) (t : TxState) :
    Option (EngineState × List (Bytes × ItemRawAny) × List String × List Ev) :=
  match notifySubscribersM t.sql false e t.updates t.deletes [] [] with
  | none => none
  | some (e1, ups1, d1, ev1) =>
    notifySubscribersM t.sql true e1 ups1 t.deletes d1 ev1

/-- The flush loop of db.onCommit over the dirty set. -/
def runFlushes : EngineState → List String → EngineState × List Ev
  | e, [] => (e, [])
  | e, sid :: rest =>
    match e.subsById.lookup sid with
    | none => runFlushes e rest
    | some s =>
      let p := subFlush s
      let r := runFlushes { e with subsById := mapPut e.subsById sid p.1 } rest
      (r.1, p.2 ++ r.2)

/-- The event loop's handling of one commit request (mainLoop): run
onCommit — both notification passes, then the flushes — and only then
invoke doCommit, which commits the underlying SQL transaction and
publishes its view; the result is sent back to the committer. -/
def processCommit (e : EngineState) (t : TxState) :
    Option (EngineState × List String × List Ev) :=
  match runPasses e t with
  | none => none
  | some (e2, _, dirty, evs) =>
    let fr := runFlushes e2 dirty
    some ({ fr.1 with committed := t.sql }, dirty, evs ++ fr.2 ++ [.sqlCommit])

/-- An engine with no subscriptions over an empty committed store. -/
def c9E0 : EngineState := { schema := "test", serde := newSerde, committed := {} }

/-- The subscription of the C5 scenario: one subscriber at prefix "p". -/
def c5Sub : SubState :=
  { id := "s1", pathPfxs := [[112]], joinDetails := false, receiveInitial := false }

/-- An engine with that single registered subscription. -/
def c5E1 : EngineState :=
  { schema := "test", serde := newSerde, committed := {},
    subsById := [("s1", c5Sub)], byPath := [([112], ["s1"])] }

/-- A fresh transaction on the empty store. -/
def c5T0 : TxState := { schema := "test", serde := newSerde, sql := {} }

/-- The transaction of the C5 scenario: a put of "p1" = "0". -/
def c5T1 : TxState :=
  match txPut c5T0 [112, 49] (some (.str [48])) none [] true with
  | .ok t1 => t1
  | .error _ => c5T0

theorem leBytes_length (w n : Nat) : (leBytes w n).length = w := by
  induction w generalizing n with
  | zero => rfl
  | succ k ih => simp [leBytes, ih]

theorem leVal_leBytes (w n : Nat) : leVal (leBytes w n) = n % 256 ^ w := by
  induction w generalizing n with
  | zero => simp [leBytes, leVal, Nat.mod_one]
  | succ k ih =>
    simp only [leBytes, leVal, ih, Nat.pow_succ, Nat.mul_comm (256 ^ k) 256, Nat.mod_mul]

theorem toUns_lt_16 (n : Int) : toUns 16 n < 65536 := by
  simp only [toUns]
  omega

theorem toUns_lt_32 (n : Int) : toUns 32 n < 4294967296 := by
  simp only [toUns]
  omega

theorem toUns_lt_64 (n : Int) : toUns 64 n < 18446744073709551616 := by
  simp only [toUns]
  omega

theorem toSigned_toUns_16 (n : Int) (h1 : -32768 ≤ n) (h2 : n < 32768) :
    toSigned 16 (toUns 16 n) = n := by
  simp only [toSigned, toUns]
  omega

theorem toSigned_toUns_32 (n : Int) (h1 : -2147483648 ≤ n) (h2 : n < 2147483648) :
    toSigned 32 (toUns 32 n) = n := by
  simp only [toSigned, toUns]
  omega

theorem toSigned_toUns_64 (n : Int)
    (h1 : -9223372036854775808 ≤ n) (h2 : n < 9223372036854775808) :
    toSigned 64 (toUns 64 n) = n := by
  simp only [toSigned, toUns]
  omega

theorem take_append_of_length {α : Type} (l₁ l₂ : List α) (k : Nat) (h : l₁.length = k) :
    (l₁ ++ l₂).take k = l₁ := by
  subst h
  exact List.take_left l₁ l₂

theorem drop_append_of_length {α : Type} (l₁ l₂ : List α) (k : Nat) (h : l₁.length = k) :
    (l₁ ++ l₂).drop k = l₂ := by
  subst h
  exact List.drop_left l₁ l₂

theorem leVal_take_leBytes_16 (n : Int) (tail : Bytes) :
    leVal (((leBytes 2 (toUns 16 n)) ++ tail).take 2) = toUns 16 n := by
  rw [take_append_of_length _ _ 2 (leBytes_length 2 _), leVal_leBytes]
  exact Nat.mod_eq_of_lt (toUns_lt_16 n)

/-- Decoding the serialized form of any wellformed, consistently
registered value recovers the value in its canonical integer width.  This
is the codec round-trip shared by several claims. -/
theorem serde_roundtrip (s : Serde) (v : GoValue) (hwf : v.wf) (hreg : s.structOK v) :
    ∃ b, s.serialize v = .ok b ∧ s.deserialize b = .ok v.canon := by
  cases v with
  | str t =>
    exact ⟨_, rfl, by simp [Serde.deserialize, tagTEXT, GoValue.canon]⟩
  | bytes b =>
    exact ⟨_, rfl, by simp [Serde.deserialize, tagTEXT, tagBYTEARRAY, GoValue.canon]⟩
  | byte b =>
    exact ⟨_, rfl, by simp [Serde.deserialize, tagTEXT, tagBYTEARRAY, tagBYTE, GoValue.canon]⟩
  | bool b =>
    refine ⟨_, rfl, ?_⟩
    cases b <;> simp [Serde.deserialize, tagTEXT, tagBYTEARRAY, tagBYTE, tagBOOLEAN, GoValue.canon]
  | int16 n =>
    refine ⟨_, rfl, ?_⟩
    simp only [Serde.deserialize, tagTEXT, tagBYTEARRAY, tagBYTE, tagBOOLEAN, tagSHORT,
      leBytes_length, GoValue.canon]
    norm_num
    rw [List.take_of_length_le (by rw [leBytes_length]), leVal_leBytes,
      show toUns 16 n % 256 ^ 2 = toUns 16 n from Nat.mod_eq_of_lt (by norm_num [toUns_lt_16 n]),
      toSigned_toUns_16 n hwf.1 hwf.2]
  | int32 n =>
    refine ⟨_, rfl, ?_⟩
    simp only [Serde.deserialize, tagTEXT, tagBYTEARRAY, tagBYTE, tagBOOLEAN, tagSHORT, tagINT,
      leBytes_length, GoValue.canon]
    norm_num
    rw [List.take_of_length_le (by rw [leBytes_length]), leVal_leBytes,
      show toUns 32 n % 256 ^ 4 = toUns 32 n from Nat.mod_eq_of_lt (by norm_num [toUns_lt_32 n]),
      toSigned_toUns_32 n hwf.1 hwf.2]
  | int n =>
    refine ⟨_, rfl, ?_⟩
    simp only [Serde.deserialize, tagTEXT, tagBYTEARRAY, tagBYTE, tagBOOLEAN, tagSHORT, tagINT,
      tagLONG, leBytes_length, GoValue.canon]
    norm_num
    rw [List.take_of_length_le (by rw [leBytes_length]), leVal_leBytes,
      show toUns 64 n % 256 ^ 8 = toUns 64 n from Nat.mod_eq_of_lt (by norm_num [toUns_lt_64 n]),
      toSigned_toUns_64 n hwf.1 hwf.2]
  | int64 n =>
    refine ⟨_, rfl, ?_⟩
    simp only [Serde.deserialize, tagTEXT, tagBYTEARRAY, tagBYTE, tagBOOLEAN, tagSHORT, tagINT,
      tagLONG, leBytes_length, GoValue.canon]
    norm_num
    rw [List.take_of_length_le (by rw [leBytes_length]), leVal_leBytes,
      show toUns 64 n % 256 ^ 8 = toUns 64 n from Nat.mod_eq_of_lt (by norm_num [toUns_lt_64 n]),
      toSigned_toUns_64 n hwf.1 hwf.2]
  | float32 bits =>
    refine ⟨_, rfl, ?_⟩
    simp only [Serde.deserialize, tagTEXT, tagBYTEARRAY, tagBYTE, tagBOOLEAN, tagSHORT, tagINT,
      tagLONG, tagFLOAT, leBytes_length, GoValue.canon]
    norm_num
    rw [List.take_of_length_le (by rw [leBytes_length]), leVal_leBytes]
    exact Nat.mod_eq_of_lt (by norm_num [GoValue.wf] at hwf; omega)
  | float64 bits =>
    refine ⟨_, rfl, ?_⟩
    simp only [Serde.deserialize, tagTEXT, tagBYTEARRAY, tagBYTE, tagBOOLEAN, tagSHORT, tagINT,
      tagLONG, tagFLOAT, tagDOUBLE, leBytes_length, GoValue.canon]
    norm_num
    rw [List.take_of_length_le (by rw [leBytes_length]), leVal_leBytes]
    exact Nat.mod_eq_of_lt (by norm_num [GoValue.wf] at hwf; omega)
  | proto t body =>
    obtain ⟨id, hl, h1, h2, hr⟩ := hreg
    refine ⟨tagPB :: (leBytes 2 (toUns 16 id) ++ body), by simp [Serde.serialize, hl], ?_⟩
    simp only [Serde.deserialize, tagTEXT, tagBYTEARRAY, tagBYTE, tagBOOLEAN, tagSHORT, tagINT,
      tagLONG, tagFLOAT, tagDOUBLE, tagPB, GoValue.canon]
    norm_num
    rw [if_neg (by simp [List.length_append, leBytes_length]), leVal_take_leBytes_16,
      toSigned_toUns_16 id h1 h2, hr, drop_append_of_length _ _ 2 (leBytes_length 2 _)]
  | json t body =>
    obtain ⟨id, hl, h1, h2, hr⟩ := hreg
    refine ⟨tagJSON :: (leBytes 2 (toUns 16 id) ++ body), by simp [Serde.serialize, hl], ?_⟩
    simp only [Serde.deserialize, tagTEXT, tagBYTEARRAY, tagBYTE, tagBOOLEAN, tagSHORT, tagINT,
      tagLONG, tagFLOAT, tagDOUBLE, tagPB, tagJSON, GoValue.canon]
    norm_num
    rw [if_neg (by simp [List.length_append, leBytes_length]), leVal_take_leBytes_16,
      toSigned_toUns_16 id h1 h2, hr, drop_append_of_length _ _ 2 (leBytes_length 2 _)]

/-- C2: for every supported value v — every primitive category the codec
accepts and every registered structured type — deserialize(serialize(v))
succeeds and equals v, with 64-bit the canonical integer width on decode
(a Go int is decoded back as the numerically equal int64). -/
theorem c2_codec_roundtrip (s : Serde) (v : GoValue) (hwf : v.wf) (hreg : s.structOK v) :
    ∃ b, s.serialize v = .ok b ∧ s.deserialize b = .ok v.canon :=
  serde_roundtrip s v hwf hreg

/-- Witness for C2 at a registered structured value. -/
theorem c2_codec_roundtrip_witness :
    ∃ b, (newSerde.register 1 7 true).serialize (.proto 7 [1, 2, 3]) = .ok b ∧
      (newSerde.register 1 7 true).deserialize b = .ok (GoValue.proto 7 [1, 2, 3]).canon := by
  refine c2_codec_roundtrip (newSerde.register 1 7 true) (.proto 7 [1, 2, 3]) (by decide) ?_
  exact ⟨1, rfl, by decide, by decide, rfl⟩

/-- C10: the codec's deserialize is not total — the empty byte sequence
and tagged sequences whose body is shorter than the category's fixed
length (a lone 'S' = 83 or 'B' = 66 tag byte, or a SHORT with a one-byte
body) hit an index-out-of-range panic instead of returning an error, and
the panic is reachable through Raw.Value on such bytes. -/
theorem c10_deserialize_panics :
    newSerde.deserialize [] = .panics ∧
    newSerde.deserialize [83] = .panics ∧
    newSerde.deserialize [66] = .panics ∧
    newSerde.deserialize [83, 0] = .panics ∧
    rawValue newSerde { bytes := [] } = .panics ∧
    rawValue newSerde { bytes := [83] } = .panics := by
  exact ⟨rfl, by decide, by decide, by decide, rfl, by decide⟩

theorem find?_map_update (l : List DataRow) (p v : Bytes)
    (h : l.any (fun r => r.path == p) = true) :
    (List.find? (fun r => r.path == p)
      (l.map (fun r => if r.path == p then { r with value := v } else r))).map
        (fun r => r.value) = some v := by
  induction l with
  | nil => simp at h
  | cons a l ih =>
    by_cases hp : a.path = p
    · simp [List.find?, hp]
    · have hp' : (a.path == p) = false := beq_false_of_ne hp
      simp only [List.any_cons, hp', Bool.false_or] at h
      simpa [List.find?, hp'] using ih h

theorem find?_append_new (l : List DataRow) (q : Bytes) (row : DataRow)
    (hq : row.path = q) (h : l.any (fun r => r.path == q) = false) :
    List.find? (fun r => r.path == q) (l ++ [row]) = some row := by
  induction l with
  | nil => simp [List.find?, hq]
  | cons a l ih =>
    simp only [List.any_cons, Bool.or_eq_false_iff] at h
    simpa [List.find?, h.1] using ih h.2

/-- After a successful dataInsert, the value at the inserted path reads
back as the inserted value. -/
theorem dataInsert_select (st : SQLState) (schema : String) (p v : Bytes) (rid : Option Int)
    (ocu : Bool) (st1 : SQLState) (h : dataInsert st schema p v rid ocu = .ok st1) :
    dataSelectValue st1 p = some v := by
  unfold dataInsert at h
  by_cases hhas : dataHas st p
  · simp only [hhas, if_true] at h
    cases ocu with
    | false => simp at h
    | true =>
      simp only [if_true] at h
      cases h
      simpa [dataSelectValue] using find?_map_update st.data p v hhas
  · simp only [hhas, if_false, Bool.false_eq_true] at h
    cases h
    unfold dataHas at hhas
    simp only [dataSelectValue]
    rw [find?_append_new st.data p { path := p, value := v, rowid := rid } rfl
      (by simpa using hhas)]
    rfl

/-- After a delete, the deleted path reads back as absent. -/
theorem dataDelete_select (st : SQLState) (p : Bytes) :
    dataSelectValue (dataDelete st p) p = none := by
  simp only [dataSelectValue, dataDelete]
  rw [List.find?_eq_none.mpr]
  · rfl
  · intro r hr
    have := (List.mem_filter.mp hr).2
    simpa using this

/-- A serialized value always starts with its one-byte category tag, so
it is never the empty byte string. -/
theorem serialize_length_pos (s : Serde) (v : GoValue) (b : Bytes)
    (h : s.serialize v = .ok b) : 0 < b.length := by
  cases v with
  | proto t body =>
    simp only [Serde.serialize] at h
    cases hl : List.lookup t s.registeredProtocolBufferTypes with
    | none => rw [hl] at h; simp at h
    | some id => rw [hl] at h; simp only [Except.ok.injEq] at h; subst h; simp
  | json t body =>
    simp only [Serde.serialize] at h
    cases hl : List.lookup t s.registeredJSONTypes with
    | none => rw [hl] at h; simp at h
    | some id => rw [hl] at h; simp only [Except.ok.injEq] at h; subst h; simp
  | _ =>
    simp only [Serde.serialize, Except.ok.injEq] at h
    subst h
    simp

/-- A successful tx.Put with a native (non-nil) value leaves the
serialized value stored at the serialized path in the transaction's SQL
view. -/
theorem txPut_stores (t : TxState) (p : Bytes) (v : GoValue) (ft : Bytes) (uip : Bool)
    (t1 : TxState) (h : txPut t p (some v) none ft uip = .ok t1) :
    ∃ sv, t.serde.serialize v = .ok sv ∧ dataSelectValue t1.sql (tagTEXT :: p) = some sv ∧
      t1.serde = t.serde := by
  unfold txPut at h
  rw [if_neg (by simp)] at h
  dsimp only at h
  cases hser : t.serde.serialize v with
  | error e => rw [hser] at h; simp at h
  | ok sv =>
    rw [hser] at h
    dsimp only at h
    refine ⟨sv, rfl, ?_⟩
    by_cases hft : ft = []
    · rw [if_pos hft] at h
      cases hins : dataInsert t.sql t.schema (tagTEXT :: p) sv none uip with
      | error e => rw [hins] at h; simp at h
      | ok st =>
        rw [hins] at h
        simp only [Except.ok.injEq] at h
        subst h
        exact ⟨dataInsert_select _ _ _ _ _ _ st hins, rfl⟩
    · rw [if_neg hft] at h
      cases hrow : dataSelectRowid t.sql (tagTEXT :: p) with
      | none =>
        rw [hrow] at h
        rw [show (counterUpsert t.sql).counter = some (nextCounter t.sql) from rfl] at h
        dsimp only at h
        cases hins : dataInsert (counterUpsert t.sql) t.schema (tagTEXT :: p) sv
            (some (nextCounter t.sql)) uip with
        | error e => rw [hins] at h; simp at h
        | ok st =>
          rw [hins] at h
          simp only [Except.ok.injEq] at h
          subst h
          exact ⟨dataInsert_select _ _ _ _ _ _ st hins, rfl⟩
      | some orid =>
        cases orid with
        | none => rw [hrow] at h; simp at h
        | some rid =>
          rw [hrow] at h
          dsimp only at h
          cases hins : dataInsert t.sql t.schema (tagTEXT :: p) sv (some rid) uip with
          | error e => rw [hins] at h; simp at h
          | ok st =>
            rw [hins] at h
            simp only [Except.ok.injEq] at h
            subst h
            exact ⟨dataInsert_select _ _ _ _ _ _ st hins, rfl⟩

/-- C1: for every path and supported value, after a successful
Put(path, v) followed by a successful Commit, Get(path) on the database
returns v (in its canonical decode width); and after a successful
Delete(path) followed by a successful Commit, Get(path) reports the value
as absent — a nil result with a nil error. -/
theorem c1_put_commit_get (d : DBState) (t : TxState) (hsd : t.serde = d.serde)
    (p : Bytes) (v : GoValue) (ft : Bytes) (uip : Bool)
    (t1 : TxState) (hput : txPut t p (some v) none ft uip = .ok t1)
    (hwf : v.wf) (hreg : t.serde.structOK v) :
    dbGet (commitTx d t1) p = .ok (some v.canon) ∧
    (∀ t2 : TxState, ∀ t3 : TxState, txDelete t2 p = .ok t3 →
      ∀ d2 : DBState, dbGet (commitTx d2 t3) p = .ok none) := by
  constructor
  · obtain ⟨sv, hser, hsel, hserde⟩ := txPut_stores t p v ft uip t1 hput
    obtain ⟨b, hser2, hdes⟩ := serde_roundtrip t.serde v hwf hreg
    rw [hser] at hser2
    cases hser2
    have hlen : 0 < sv.length := serialize_length_pos t.serde v sv hser
    rw [hsd] at hdes
    simp only [dbGet, commitTx, typedGet, rGet, qGet, hsel, hlen, if_pos, gt_iff_lt]
    simp only [rawValue, Bool.false_eq_true, if_false, hdes]
  · intro t2 t3 hdel d2
    cases hdel
    simp [dbGet, commitTx, typedGet, rGet, qGet, dataDelete_select]

/-- Witness for C1: a concrete put of a one-byte string value at a
one-byte path on an empty database, then a delete in a later
transaction. -/
theorem c1_put_commit_get_witness :
    dbGet (commitTx { schema := "test", serde := newSerde, committed := {} }
        { schema := "test", serde := newSerde,
          sql := { data := [{ path := [84, 112], value := [84, 120], rowid := none }] },
          updates := [([112],
            { path := [112],
              value := some { bytes := [84, 120], loaded := true,
                              value := some (.str [120]) } })],
          deletes := [] }) [112] = .ok (some (GoValue.str [120]).canon) ∧
    (∀ t2 t3 : TxState, txDelete t2 [112] = .ok t3 →
      ∀ d2 : DBState, dbGet (commitTx d2 t3) [112] = .ok none) := by
  refine c1_put_commit_get { schema := "test", serde := newSerde, committed := {} }
    (dbBegin { schema := "test", serde := newSerde, committed := {} }) rfl
    [112] (.str [120]) [] true _ ?_ (by decide) trivial
  rfl

/-- C4 (code evaluated at the failing input): a successful Put that
supplies non-empty full text on a new path returns from the branch that
inserts the FTS row without calling saveUpdate, so the update is not
recorded in the transaction's updates map and a previously pending delete
for the path is not removed — although the SQL row was written. -/
theorem c4_fulltext_put_not_recorded :
    ∃ t1 t2 : TxState,
      txDelete (dbBegin { schema := "test", serde := newSerde, committed := {} }) [112]
        = .ok t1 ∧
      txPut t1 [112] (some (.str [120])) none [102] true = .ok t2 ∧
      t2.updates = [] ∧ t2.deletes = [[112]] ∧
      dataSelectValue t2.sql (tagTEXT :: [112]) = some [tagTEXT, 120] := by
  exact ⟨_, _, rfl, rfl, rfl, rfl, rfl⟩

/-- C3 (code evaluated at the failing input): inside one transaction, a
Delete of a fresh path followed by a successful full-text Put of the same
path leaves the change-set buffers recording only the delete — the final
effect (a put) is not what the buffers coalesce to.  (The buffers do stay
mutually exclusive: the path sits only in deletes.) -/
theorem c3_delete_then_fulltext_put :
    ∃ t1 t2 : TxState,
      txDelete (dbBegin { schema := "s", serde := newSerde, committed := {} }) [113]
        = .ok t1 ∧
      txPut t1 [113] (some (.str [51])) none [116] true = .ok t2 ∧
      t2.updates = [] ∧ t2.deletes = [[113]] ∧
      dataSelectValue t2.sql (tagTEXT :: [113]) = some [tagTEXT, 51] := by
  exact ⟨_, _, rfl, rfl, rfl, rfl, rfl⟩

/-- C6: when fn returns a non-nil error, Mutate rolls the transaction
back, leaving the database state — and with it everything observable via
Get — identical to the pre-mutation state, and returns fn's error
wrapped, unless the rollback itself fails, in which case the rollback
error supersedes fn's error. -/
theorem c6_mutate_rollback (d : DBState) (rollbackErr : Option GoError)
    (fn : TxState → TxState × Option GoError) (t1 : TxState) (e : GoError)
    (hfn : fn (dbBegin d) = (t1, some e)) :
    (mutate d rollbackErr fn).1 = d ∧
    (∀ p : Bytes, dbGet (mutate d rollbackErr fn).1 p = dbGet d p) ∧
    (∀ q : QueryParams, queryableList d.serde (mutate d rollbackErr fn).1.committed q
      = queryableList d.serde d.committed q) ∧
    (mutate d rollbackErr fn).2 = some (match rollbackErr with
      | some re => .wrap "mutate: rollback transaction" re
      | none => .wrap "mutate: fn" e) := by
  cases rollbackErr <;> simp [mutate, hfn]

/-- Witness for C6: a concrete failing mutation on a concrete database. -/
theorem c6_mutate_rollback_witness :
    (mutate { schema := "test", serde := newSerde, committed := {} } none
        (fun t => (t, some (.custom "test error")))).1
      = { schema := "test", serde := newSerde, committed := {} } ∧
    (∀ p : Bytes, dbGet (mutate { schema := "test", serde := newSerde, committed := {} } none
        (fun t => (t, some (.custom "test error")))).1 p
      = dbGet { schema := "test", serde := newSerde, committed := {} } p) ∧
    (∀ q : QueryParams, queryableList newSerde
        (mutate { schema := "test", serde := newSerde, committed := {} } none
          (fun t => (t, some (.custom "test error")))).1.committed q
      = queryableList newSerde ({} : SQLState) q) ∧
    (mutate { schema := "test", serde := newSerde, committed := {} } none
        (fun t => (t, some (.custom "test error")))).2
      = some (.wrap "mutate: fn" (.custom "test error")) := by
  exact c6_mutate_rollback _ none _ _ (.custom "test error") rfl

theorem charsHasSub_of_pfx (pat ys : List Char) (h : pat.isPrefixOf ys = true) :
    charsHasSub pat ys = true := by
  cases ys with
  | nil =>
    cases pat with
    | nil => rfl
    | cons c cs => simp [List.isPrefixOf] at h
  | cons y ys => simp [charsHasSub, h]

theorem charsHasSub_append (pat xs ys : List Char) (h : charsHasSub pat ys = true) :
    charsHasSub pat (xs ++ ys) = true := by
  induction xs with
  | nil => exact h
  | cons x xs ih => simp [charsHasSub, ih]

theorem isPrefixOf_append_of (pat pre rest : List Char) (h : pat.isPrefixOf pre = true) :
    pat.isPrefixOf (pre ++ rest) = true := by
  induction pat generalizing pre with
  | nil => simp [List.isPrefixOf]
  | cons c cs ih =>
    cases pre with
    | nil => simp [List.isPrefixOf] at h
    | cons d ds =>
      simp only [List.isPrefixOf, List.cons_append, Bool.and_eq_true] at h ⊢
      exact ⟨h.1, ih ds h.2⟩

theorem strContains_wrap_unique (msg schema : String) :
    strContains (GoError.wrap msg (.sqlUniqueConstraint (schema ++ "_data.path"))).errText
      "UNIQUE constraint failed" = true := by
  have hdata : (msg ++ ": " ++ ("UNIQUE constraint failed: " ++ (schema ++ "_data.path"))).data
      = msg.data ++ (": ".data ++
          ("UNIQUE constraint failed: ".data ++ (schema ++ "_data.path").data)) := by
    simp [String.data_append]
  simp only [strContains, GoError.errText]
  rw [hdata]
  apply charsHasSub_append
  apply charsHasSub_append
  apply charsHasSub_of_pfx
  exact isPrefixOf_append_of _ _ _ (by decide)

theorem find?_eq_none_of_any_false (l : List DataRow) (p : Bytes)
    (h : l.any (fun r => r.path == p) = false) :
    List.find? (fun r => r.path == p) l = none := by
  rw [List.find?_eq_none]
  intro x hx hc
  have : l.any (fun r => r.path == p) = true := List.any_eq_true.mpr ⟨x, hx, hc⟩
  rw [h] at this
  exact absurd this (by simp)

/-- A Put on a fresh path succeeds and stores the serialized value, for
any full text and either conflict mode. -/
theorem txPut_fresh (t : TxState) (p : Bytes) (v : GoValue) (ft : Bytes) (uip : Bool)
    (sv : Bytes) (hser : t.serde.serialize v = .ok sv)
    (habs : dataHas t.sql (tagTEXT :: p) = false) :
    ∃ t1, txPut t p (some v) none ft uip = .ok t1 ∧
      dataSelectValue t1.sql (tagTEXT :: p) = some sv := by
  have hrow : dataSelectRowid t.sql (tagTEXT :: p) = none := by
    simp only [dataSelectRowid, find?_eq_none_of_any_false t.sql.data (tagTEXT :: p) habs,
      Option.map_none']
  unfold txPut
  rw [if_neg (by simp)]
  dsimp only
  rw [hser]
  dsimp only
  by_cases hft : ft = []
  · rw [if_pos hft]
    have hins : dataInsert t.sql t.schema (tagTEXT :: p) sv none uip
        = .ok { t.sql with data := t.sql.data ++
            [{ path := tagTEXT :: p, value := sv, rowid := none }] } := by
      unfold dataInsert
      rw [if_neg (by simp [habs])]
    rw [hins]
    refine ⟨_, rfl, ?_⟩
    simp only [dataSelectValue]
    rw [find?_append_new t.sql.data (tagTEXT :: p)
      { path := tagTEXT :: p, value := sv, rowid := none } rfl habs]
    rfl
  · rw [if_neg hft, hrow]
    rw [show (counterUpsert t.sql).counter = some (nextCounter t.sql) from rfl]
    dsimp only
    have habs2 : dataHas (counterUpsert t.sql) (tagTEXT :: p) = false := habs
    have hins : dataInsert (counterUpsert t.sql) t.schema (tagTEXT :: p) sv
        (some (nextCounter t.sql)) uip
        = .ok { counterUpsert t.sql with data := (counterUpsert t.sql).data ++
            [{ path := tagTEXT :: p, value := sv, rowid := some (nextCounter t.sql) }] } := by
      unfold dataInsert
      rw [if_neg (by simp [habs2])]
    rw [hins]
    refine ⟨_, rfl, ?_⟩
    simp only [dataSelectValue, ftsInsert]
    rw [find?_append_new (counterUpsert t.sql).data (tagTEXT :: p)
      { path := tagTEXT :: p, value := sv, rowid := some (nextCounter t.sql) } rfl habs2]
    rfl

/-- C7 (amended): with update_if_present false, a Put without full text —
or with full text onto an existing full-text-indexed row — to a path that
already holds a value raises a unique-constraint error, which PutIfAbsent
catches, returning didPut = false with a nil error and the state
unchanged; PutIfAbsent on a previously absent path stores the value and
returns didPut = true.  (A full-text put onto an existing row whose rowid
is NULL instead fails scanning the rowid; see the counterexample.) -/
theorem c7_putifabsent_constraint (t : TxState) (p : Bytes) (v : GoValue) (ft : Bytes)
    (sv : Bytes) (hser : t.serde.serialize v = .ok sv) :
    (dataHas t.sql (tagTEXT :: p) = true →
      (ft = [] ∨ ∃ r : Int, dataSelectRowid t.sql (tagTEXT :: p) = some (some r)) →
      ∃ e, txPut t p (some v) none ft false = .error e ∧
        strContains e.errText "UNIQUE constraint failed" = true ∧
        putIfAbsent t p v ft = (t, false, none)) ∧
    (dataHas t.sql (tagTEXT :: p) = false →
      ∃ t1, putIfAbsent t p v ft = (t1, true, none) ∧
        dataSelectValue t1.sql (tagTEXT :: p) = some sv) := by
  constructor
  · intro hhas hcase
    have hput : ∃ msg, txPut t p (some v) none ft false
        = .error (.wrap msg (.sqlUniqueConstraint (t.schema ++ "_data.path"))) := by
      unfold txPut
      rw [if_neg (by simp)]
      dsimp only
      rw [hser]
      dsimp only
      by_cases hft : ft = []
      · rw [if_pos hft]
        have hins : dataInsert t.sql t.schema (tagTEXT :: p) sv none false
            = .error (.sqlUniqueConstraint (t.schema ++ "_data.path")) := by
          unfold dataInsert
          rw [if_pos hhas]
          rfl
        rw [hins]
        exact ⟨"put: insert", rfl⟩
      · rcases hcase with hft2 | ⟨r, hrow⟩
        · exact absurd hft2 hft
        · rw [if_neg hft, hrow]
          dsimp only
          have hins : dataInsert t.sql t.schema (tagTEXT :: p) sv (some r) false
              = .error (.sqlUniqueConstraint (t.schema ++ "_data.path")) := by
            unfold dataInsert
            rw [if_pos hhas]
            rfl
          rw [hins]
          exact ⟨"put: insert indexed value", rfl⟩
    obtain ⟨msg, hp⟩ := hput
    refine ⟨_, hp, strContains_wrap_unique msg t.schema, ?_⟩
    simp [putIfAbsent, hp, strContains_wrap_unique msg t.schema]
  · intro habs
    obtain ⟨t1, hok, hsel⟩ := txPut_fresh t p v ft false sv hser habs
    exact ⟨t1, by simp [putIfAbsent, hok], hsel⟩

/-- Counterexample to C7 as stated: on a database whose existing row at
the path was stored without full text (NULL rowid), a Put with
update_if_present = false and non-empty full text fails scanning the
rowid — not with a unique-constraint error — and PutIfAbsent surfaces
that error instead of returning didPut = false with a nil error. -/
theorem c7_nullrowid_cex :
    ∃ e, txPut c7NullRowidTx [112] (some (.str [121])) none [102] false = .error e ∧
      strContains e.errText "UNIQUE constraint failed" = false ∧
      (putIfAbsent c7NullRowidTx [112] (.str [121]) [102]).2.2 ≠ none ∧
      dataHas c7NullRowidTx.sql (tagTEXT :: [112]) = true := by
  refine ⟨_, rfl, by decide, by decide, by decide⟩

/-- Witness for the amended C7 at a concrete occupied path (no full
text): the constraint error is raised and caught. -/
theorem c7_putifabsent_constraint_witness :
    ∃ e, txPut c7OccupiedTx [112] (some (.str [121])) none [] false = .error e ∧
      strContains e.errText "UNIQUE constraint failed" = true ∧
      putIfAbsent c7OccupiedTx [112] (.str [121]) [] = (c7OccupiedTx, false, none) := by
  exact (c7_putifabsent_constraint c7OccupiedTx [112] (.str [121]) [] [84, 121] rfl).1
    (by decide) (Or.inl rfl)

theorem bytesLe_total (x y : Bytes) : bytesLe x y = true ∨ bytesLe y x = true := by
  induction x generalizing y with
  | nil => exact Or.inl rfl
  | cons a as ih =>
    cases y with
    | nil => exact Or.inr rfl
    | cons b bs =>
      rcases Nat.lt_trichotomy a b with h | h | h
      · exact Or.inl (by simp [bytesLe, h])
      · subst h
        rcases ih bs with h2 | h2
        · exact Or.inl (by simp [bytesLe, h2])
        · exact Or.inr (by simp [bytesLe, h2])
      · exact Or.inr (by simp [bytesLe, h])

theorem bytesLe_cons_iff (a b : Nat) (as bs : Bytes) :
    bytesLe (a :: as) (b :: bs) = true ↔ (a < b ∨ (a = b ∧ bytesLe as bs = true)) := by
  constructor
  · intro h
    by_cases hab : a < b
    · exact Or.inl hab
    · by_cases hba : b < a
      · simp [bytesLe, hab, hba] at h
      · have he : a = b := by omega
        subst he
        simp only [bytesLe, if_neg hab, if_neg hba] at h
        exact Or.inr ⟨rfl, h⟩
  · intro h
    rcases h with h | ⟨he, hrec⟩
    · simp [bytesLe, h]
    · subst he
      simp [bytesLe, hrec, Nat.lt_irrefl]

theorem bytesLe_trans (x y z : Bytes) (h1 : bytesLe x y = true) (h2 : bytesLe y z = true) :
    bytesLe x z = true := by
  induction x generalizing y z with
  | nil => rfl
  | cons a as ih =>
    cases y with
    | nil => simp [bytesLe] at h1
    | cons b bs =>
      cases z with
      | nil => simp [bytesLe] at h2
      | cons c cs =>
        rw [bytesLe_cons_iff] at h1 h2 ⊢
        rcases h1 with h1 | ⟨e1, r1⟩ <;> rcases h2 with h2 | ⟨e2, r2⟩
        · exact Or.inl (by omega)
        · exact Or.inl (by omega)
        · exact Or.inl (by omega)
        · exact Or.inr ⟨by omega, ih bs cs r1 r2⟩

theorem bytesLe_cons (c : Nat) (x y : Bytes) : bytesLe (c :: x) (c :: y) = bytesLe x y := by
  simp [bytesLe]

theorem likeMatch_text_cons (ps s : Bytes) : likeMatch (84 :: ps) (84 :: s) = likeMatch ps s := by
  simp [likeMatch]

theorem orderedInsert_congr {α : Type} (r r2 : α → α → Prop)
    [DecidableRel r] [DecidableRel r2] (x : α) (l : List α)
    (h : ∀ b ∈ l, r x b ↔ r2 x b) :
    List.orderedInsert r x l = List.orderedInsert r2 x l := by
  induction l with
  | nil => rfl
  | cons y ys ih =>
    simp only [List.orderedInsert]
    by_cases hr : r x y
    · rw [if_pos hr, if_pos ((h y (by simp)).mp hr)]
    · rw [if_neg hr, if_neg (fun hc => hr ((h y (by simp)).mpr hc)),
        ih (fun b hb => h b (by simp [hb]))]

theorem insertionSort_congr {α : Type} (r r2 : α → α → Prop)
    [DecidableRel r] [DecidableRel r2] (l : List α)
    (h : ∀ a ∈ l, ∀ b ∈ l, r a b ↔ r2 a b) :
    List.insertionSort r l = List.insertionSort r2 l := by
  induction l with
  | nil => rfl
  | cons x xs ih =>
    simp only [List.insertionSort]
    rw [ih (fun a ha => fun b hb => h a (by simp [ha]) b (by simp [hb]))]
    exact orderedInsert_congr r r2 x (List.insertionSort r2 xs)
      (fun b hb => h x (by simp) b
        (by simp [((List.perm_insertionSort r2 xs).mem_iff).mp hb]))

theorem scanRows_wf (sd : Serde) (rows : List DataRow)
    (h : ∀ r ∈ rows, r.path.head? = some tagTEXT) :
    scanRows sd (rows.map (fun r => (r.path, none, r.value)))
      = .ok (rows.map (fun r => { path := r.path.tail, value := r.value })) := by
  induction rows with
  | nil => rfl
  | cons r rest ih =>
    have hr := h r (by simp)
    have hcons : r.path = tagTEXT :: r.path.tail := by
      cases hp : r.path with
      | nil => rw [hp] at hr; simp at hr
      | cons a l =>
        rw [hp] at hr
        simp only [List.head?_cons, Option.some.injEq] at hr
        simp [hr]
    simp only [List.map_cons, scanRows]
    rw [show scanRow sd r.path none r.value = .ok { path := r.path.tail, value := r.value } from by
      rw [hcons]
      simp [scanRow, Serde.deserialize, tagTEXT]]
    rw [ih (fun x hx => h x (by simp [hx]))]

/-- C8: for every stored state and prefix-list query without search (and
without the detail join), List returns exactly the rows whose path
matches the LIKE pattern, ordered by path ascending (or descending when
reverse_sort is set), skipping the first start rows and returning at most
count rows, with count defaulting to the maximum positive int32 when
unset.  The result equals the spec-side listSpec, is sorted, matches the
pattern, and respects the count bound. -/
theorem c8_prefix_list (sd : Serde) (st : SQLState) (q0 : QueryParams)
    (hwf : ∀ r ∈ st.data, r.path.head? = some tagTEXT)
    (hjd : q0.joinDetails = false) (hs : 0 ≤ q0.start) (hc : 0 ≤ q0.count) :
    queryableList sd st q0 = .ok (listSpec st q0) ∧
    (listSpec st q0).length ≤ (if q0.count = 0 then (2147483647 : Int) else q0.count).toNat ∧
    (∀ it ∈ listSpec st q0, likeMatch q0.path it.path = true) ∧
    List.Pairwise (fun a b : QueryItem =>
      (if q0.reverseSort then bytesLe b.path a.path else bytesLe a.path b.path) = true)
      (listSpec st q0) := by
  have hconsOf : ∀ r ∈ st.data, r.path = tagTEXT :: r.path.tail := by
    intro r hr
    have h := hwf r hr
    cases hp : r.path with
    | nil => rw [hp] at h; simp at h
    | cons a l =>
      rw [hp] at h
      simp only [List.head?_cons, Option.some.injEq] at h
      simp [h]
  have hfil : st.data.filter (fun r => likeMatch (tagTEXT :: q0.path) r.path)
      = st.data.filter (fun r => likeMatch q0.path r.path.tail) := by
    apply List.filter_congr
    intro r hr
    conv_lhs => rw [hconsOf r hr]
    rw [show tagTEXT = 84 from rfl, likeMatch_text_cons]
  have hmemfil : ∀ r ∈ st.data.filter (fun r => likeMatch q0.path r.path.tail), r ∈ st.data :=
    fun r hr => (List.mem_filter.mp hr).1
  have hsortagree : ∀ a ∈ st.data.filter (fun r => likeMatch q0.path r.path.tail),
      ∀ b ∈ st.data.filter (fun r => likeMatch q0.path r.path.tail),
      ((fun a b : DataRow => bytesLe a.path b.path = true) a b
        ↔ (fun a b : DataRow => bytesLe a.path.tail b.path.tail = true) a b) := by
    intro a ha b hb
    simp only
    conv_lhs => rw [hconsOf a (hmemfil a ha), hconsOf b (hmemfil b hb)]
    rw [bytesLe_cons]
  have hsortagree2 : ∀ a ∈ st.data.filter (fun r => likeMatch q0.path r.path.tail),
      ∀ b ∈ st.data.filter (fun r => likeMatch q0.path r.path.tail),
      ((fun a b : DataRow => bytesLe b.path a.path = true) a b
        ↔ (fun a b : DataRow => bytesLe b.path.tail a.path.tail = true) a b) := by
    intro a ha b hb
    simp only
    conv_lhs => rw [hconsOf a (hmemfil a ha), hconsOf b (hmemfil b hb)]
    rw [bytesLe_cons]
  have hadj : (applyDefaults q0).joinDetails = q0.joinDetails := by
    unfold applyDefaults
    split <;> rfl
  have hadr : (applyDefaults q0).reverseSort = q0.reverseSort := by
    unfold applyDefaults
    split <;> rfl
  have hads : (applyDefaults q0).start = q0.start := by
    unfold applyDefaults
    split <;> rfl
  have hadc : (applyDefaults q0).count
      = (if q0.count = 0 then (2147483647 : Int) else q0.count) := by
    simp only [applyDefaults]
    by_cases h : q0.count = 0
    · rw [if_pos h, if_pos h]
    · rw [if_neg h, if_neg h]
  have hcnt : 0 ≤ (if q0.count = 0 then (2147483647 : Int) else q0.count) := by
    split
    · norm_num
    · exact hc
  cases hrs : q0.reverseSort with
  | false =>
    have hsortEq : List.insertionSort (fun a b : DataRow => bytesLe a.path b.path = true)
          (st.data.filter (fun r => likeMatch q0.path r.path.tail))
        = List.insertionSort (fun a b : DataRow => bytesLe a.path.tail b.path.tail = true)
          (st.data.filter (fun r => likeMatch q0.path r.path.tail)) :=
      insertionSort_congr _ _ _ hsortagree
    have hwfsorted : ∀ r ∈ List.insertionSort
        (fun a b : DataRow => bytesLe a.path.tail b.path.tail = true)
        (st.data.filter (fun r => likeMatch q0.path r.path.tail)), r ∈ st.data := by
      intro r hr
      exact hmemfil r (((List.perm_insertionSort _ _).mem_iff).mp hr)
    have hwindowsub : ∀ n k : Nat, List.Sublist
        (((List.insertionSort
          (fun a b : DataRow => bytesLe a.path.tail b.path.tail = true)
          (st.data.filter (fun r => likeMatch q0.path r.path.tail))).drop n).take k)
        (List.insertionSort (fun a b : DataRow => bytesLe a.path.tail b.path.tail = true)
          (st.data.filter (fun r => likeMatch q0.path r.path.tail))) := by
      intro n k
      exact (List.take_sublist _ _).trans (List.drop_sublist _ _)
    refine ⟨?_, ?_, ?_, ?_⟩
    · simp only [queryableList, hadj, hjd, Bool.false_eq_true, if_false, hfil, hadr, hrs,
        hads, hadc, listSpec]
      rw [hsortEq]
      simp only [sqlPage, hads, hadc]
      rw [if_neg (show ¬((if q0.count = 0 then (2147483647 : Int) else q0.count) < 0) from
        by omega)]
      rw [if_neg (show ¬(q0.start < 0) from by omega)]
      rw [← List.map_drop, ← List.map_take]
      rw [scanRows_wf sd _ (fun r hr => hwf r (hwfsorted r ((hwindowsub _ _).subset hr)))]
    · simp only [listSpec, hrs, Bool.false_eq_true, if_false, List.length_map]
      exact List.length_take_le _ _
    · intro it hit
      simp only [listSpec, hrs, Bool.false_eq_true, if_false, List.mem_map] at hit
      obtain ⟨r, hr, hgr⟩ := hit
      have hrF := (hwindowsub _ _).subset hr
      have hrF2 := ((List.perm_insertionSort _ _).mem_iff).mp hrF
      have := (List.mem_filter.mp hrF2).2
      rw [← hgr]
      simpa using this
    · haveI : IsTotal DataRow (fun a b : DataRow => bytesLe a.path.tail b.path.tail = true) :=
        ⟨fun a b => bytesLe_total _ _⟩
      haveI : IsTrans DataRow (fun a b : DataRow => bytesLe a.path.tail b.path.tail = true) :=
        ⟨fun a b c => bytesLe_trans _ _ _⟩
      have hsorted := List.sorted_insertionSort
        (fun a b : DataRow => bytesLe a.path.tail b.path.tail = true)
        (st.data.filter (fun r => likeMatch q0.path r.path.tail))
      simp only [listSpec, hrs, Bool.false_eq_true, if_false]
      rw [List.pairwise_map]
      exact (hsorted.sublist (hwindowsub _ _))
  | true =>
    have hsortEq : List.insertionSort (fun a b : DataRow => bytesLe b.path a.path = true)
          (st.data.filter (fun r => likeMatch q0.path r.path.tail))
        = List.insertionSort (fun a b : DataRow => bytesLe b.path.tail a.path.tail = true)
          (st.data.filter (fun r => likeMatch q0.path r.path.tail)) :=
      insertionSort_congr _ _ _ hsortagree2
    have hwfsorted : ∀ r ∈ List.insertionSort
        (fun a b : DataRow => bytesLe b.path.tail a.path.tail = true)
        (st.data.filter (fun r => likeMatch q0.path r.path.tail)), r ∈ st.data := by
      intro r hr
      exact hmemfil r (((List.perm_insertionSort _ _).mem_iff).mp hr)
    have hwindowsub : ∀ n k : Nat, List.Sublist
        (((List.insertionSort
          (fun a b : DataRow => bytesLe b.path.tail a.path.tail = true)
          (st.data.filter (fun r => likeMatch q0.path r.path.tail))).drop n).take k)
        (List.insertionSort (fun a b : DataRow => bytesLe b.path.tail a.path.tail = true)
          (st.data.filter (fun r => likeMatch q0.path r.path.tail))) := by
      intro n k
      exact (List.take_sublist _ _).trans (List.drop_sublist _ _)
    refine ⟨?_, ?_, ?_, ?_⟩
    · simp only [queryableList, hadj, hjd, Bool.false_eq_true, if_false, hfil, hadr, hrs,
        hads, hadc, listSpec, if_true]
      rw [hsortEq]
      simp only [sqlPage, hads, hadc]
      rw [if_neg (show ¬((if q0.count = 0 then (2147483647 : Int) else q0.count) < 0) from
        by omega)]
      rw [if_neg (show ¬(q0.start < 0) from by omega)]
      rw [← List.map_drop, ← List.map_take]
      rw [scanRows_wf sd _ (fun r hr => hwf r (hwfsorted r ((hwindowsub _ _).subset hr)))]
    · simp only [listSpec, hrs, if_true, List.length_map]
      exact List.length_take_le _ _
    · intro it hit
      simp only [listSpec, hrs, if_true, List.mem_map] at hit
      obtain ⟨r, hr, hgr⟩ := hit
      have hrF := (hwindowsub _ _).subset hr
      have hrF2 := ((List.perm_insertionSort _ _).mem_iff).mp hrF
      have := (List.mem_filter.mp hrF2).2
      rw [← hgr]
      simpa using this
    · haveI : IsTotal DataRow (fun a b : DataRow => bytesLe b.path.tail a.path.tail = true) :=
        ⟨fun a b => bytesLe_total _ _⟩
      haveI : IsTrans DataRow (fun a b : DataRow => bytesLe b.path.tail a.path.tail = true) :=
        ⟨fun a b c hab hbc => bytesLe_trans _ _ _ hbc hab⟩
      have hsorted := List.sorted_insertionSort
        (fun a b : DataRow => bytesLe b.path.tail a.path.tail = true)
        (st.data.filter (fun r => likeMatch q0.path r.path.tail))
      simp only [listSpec, hrs, if_true]
      rw [List.pairwise_map]
      exact (hsorted.sublist (hwindowsub _ _))

/-- Witness for C8 at a concrete store and query. -/
theorem c8_prefix_list_witness :
    queryableList newSerde c8St c8Query = .ok (listSpec c8St c8Query) ∧
    (listSpec c8St c8Query).length
      ≤ (if c8Query.count = 0 then (2147483647 : Int) else c8Query.count).toNat ∧
    (∀ it ∈ listSpec c8St c8Query, likeMatch c8Query.path it.path = true) ∧
    List.Pairwise (fun a b : QueryItem =>
      (if c8Query.reverseSort then bytesLe b.path a.path else bytesLe a.path b.path) = true)
      (listSpec c8St c8Query) :=
  c8_prefix_list newSerde c8St c8Query (by decide) rfl (by decide) (by decide)

theorem keysOf_trieAdd (trie : List (Bytes × List String)) (key : Bytes) (sid : String) :
    keysOf (trieAdd trie key sid)
      = if trie.any (fun kv => kv.1 == key) then keysOf trie else keysOf trie ++ [key] := by
  unfold trieAdd keysOf
  split
  · rw [List.map_map]
    apply List.map_congr_left
    intro kv _
    by_cases h : kv.1 == key
    · simp only [Function.comp, if_pos h]
    · simp only [Function.comp, if_neg h]
  · simp

theorem mem_keysOf_trieAdd_self (trie : List (Bytes × List String)) (key : Bytes)
    (sid : String) : key ∈ keysOf (trieAdd trie key sid) := by
  rw [keysOf_trieAdd]
  split
  · rename_i h
    rcases List.any_eq_true.mp h with ⟨kv, hmem, hk⟩
    have hkey : kv.1 = key := eq_of_beq hk
    exact hkey ▸ List.mem_map.mpr ⟨kv, hmem, rfl⟩
  · exact List.mem_append.mpr (Or.inr (by simp))

theorem mem_keysOf_trieAdd_mono (trie : List (Bytes × List String)) (key : Bytes)
    (sid : String) (k : Bytes) (h : k ∈ keysOf trie) :
    k ∈ keysOf (trieAdd trie key sid) := by
  rw [keysOf_trieAdd]
  split
  · exact h
  · exact List.mem_append.mpr (Or.inl h)

theorem mem_keysOf_trieAdd_cases (trie : List (Bytes × List String)) (key : Bytes)
    (sid : String) (k : Bytes) (h : k ∈ keysOf (trieAdd trie key sid)) :
    k ∈ keysOf trie ∨ k = key := by
  rw [keysOf_trieAdd] at h
  split at h
  · exact Or.inl h
  · rcases List.mem_append.mp h with h2 | h2
    · exact Or.inl h2
    · exact Or.inr (by simpa using h2)

theorem subscribeAbsorb_byPath (sid : String) (jd : Bool) (acc : EngineState)
    (it : ItemRawAny) : (subscribeAbsorb sid jd acc it).byPath = acc.byPath := by
  unfold subscribeAbsorb
  dsimp only
  split
  · split <;> rfl
  · split <;> rfl

theorem foldl_absorb_byPath (sid : String) (jd : Bool) (l : List ItemRawAny) :
    ∀ acc : EngineState, (l.foldl (subscribeAbsorb sid jd) acc).byPath = acc.byPath := by
  induction l with
  | nil => intro acc; rfl
  | cons x xs ih =>
    intro acc
    rw [List.foldl_cons, ih, subscribeAbsorb_byPath]

theorem subscribeStep_byPath (e : EngineState) (sid : String) (jd ri : Bool) (p : Bytes)
    (e2 : EngineState) (h : subscribeStep e sid jd ri p = some e2) :
    e2.byPath = trieAdd e.byPath p sid := by
  unfold subscribeStep at h
  dsimp only at h
  split at h
  · split at h
    · exact absurd h (by simp)
    · cases h; rfl
    · cases h
      split
      · exact foldl_absorb_byPath sid jd _ _
      · exact foldl_absorb_byPath sid jd _ _
  · cases h; rfl

theorem subscribeFold_keys (sid : String) (jd ri : Bool) :
    ∀ (pfxs : List Bytes) (e e2 : EngineState),
      subscribeFold sid jd ri e pfxs = some e2 →
      (∀ k ∈ keysOf e.byPath, k ∈ keysOf e2.byPath) ∧
      (∀ p ∈ pfxs, p ∈ keysOf e2.byPath) ∧
      (∀ k ∈ keysOf e2.byPath, k ∈ keysOf e.byPath ∨ k ∈ pfxs) := by
  intro pfxs
  induction pfxs with
  | nil =>
    intro e e2 h
    simp only [subscribeFold] at h
    cases h
    exact ⟨fun k hk => hk, by simp, fun k hk => Or.inl hk⟩
  | cons p rest ih =>
    intro e e2 h
    simp only [subscribeFold] at h
    cases hs : subscribeStep e sid jd ri p with
    | none => rw [hs] at h; exact absurd h (by simp)
    | some em =>
      rw [hs] at h
      obtain ⟨ih1, ih2, ih3⟩ := ih em e2 h
      have hb : em.byPath = trieAdd e.byPath p sid :=
        subscribeStep_byPath e sid jd ri p em hs
      refine ⟨?_, ?_, ?_⟩
      · intro k hk
        apply ih1 k
        rw [hb]
        exact mem_keysOf_trieAdd_mono e.byPath p sid k hk
      · intro q hq
        rcases List.mem_cons.mp hq with hq | hq
        · subst hq
          apply ih1 q
          rw [hb]
          exact mem_keysOf_trieAdd_self e.byPath q sid
        · exact ih2 q hq
      · intro k hk
        rcases ih3 k hk with hk2 | hk2
        · rw [hb] at hk2
          rcases mem_keysOf_trieAdd_cases e.byPath p sid k hk2 with h3 | h3
          · exact Or.inl h3
          · exact Or.inr (h3 ▸ List.mem_cons_self p rest)
        · exact Or.inr (List.mem_cons_of_mem p hk2)

theorem keysOf_map_filter (l : List (Bytes × List String)) (sid : String) :
    keysOf (l.map (fun kv => (kv.1, kv.2.filter (fun i => !(i == sid))))) = keysOf l := by
  unfold keysOf
  rw [List.map_map]
  rfl

theorem mem_map_filter_not (l : List (Bytes × List String)) (sid : String) :
    ∀ kv ∈ l.map (fun kv => (kv.1, kv.2.filter (fun i => !(i == sid)))), sid ∉ kv.2 := by
  intro kv hkv
  rcases List.mem_map.mp hkv with ⟨kv0, _, rfl⟩
  intro hmem
  have := (List.mem_filter.mp hmem).2
  simp at this

/-- C9: corrected.  Subscribe registers each path prefix only after
stripping all trailing % wildcard bytes (so a prefix of only wildcards is
registered at the empty key), and every key of the resulting main trie is
either pre-existing or the stripped form of a subscribed prefix;
onDeleteSubscription removes the unsubscribed id from every bucket of
both tries but preserves the tries' node keys — emptied bucket nodes are
not removed (contrary to the claim). -/
theorem c9_unsubscribe_trim (e : EngineState) (sid : String) (sub : SubSpec)
    (e2 : EngineState) (hsub : onNewSubscription e sub = some e2) :
    (∀ p ∈ sub.pathPfxs, trimTrailingPct p ∈ keysOf e2.byPath) ∧
    (∀ k ∈ keysOf e2.byPath,
      k ∈ keysOf e.byPath ∨ ∃ p ∈ sub.pathPfxs, k = trimTrailingPct p) ∧
    keysOf (onDeleteSubscription e sid).byPath = keysOf e.byPath ∧
    keysOf (onDeleteSubscription e sid).byDetail = keysOf e.byDetail ∧
    (∀ kv ∈ (onDeleteSubscription e sid).byPath, sid ∉ kv.2) ∧
    (∀ kv ∈ (onDeleteSubscription e sid).byDetail, sid ∉ kv.2) := by
  unfold onNewSubscription mkSubState at hsub
  dsimp only at hsub
  obtain ⟨h1, h2, h3⟩ := subscribeFold_keys sub.id sub.joinDetails sub.receiveInitial
    (sub.pathPfxs.map trimTrailingPct) _ e2 hsub
  refine ⟨?_, ?_, ?_, ?_, ?_, ?_⟩
  · intro p hp
    exact h2 (trimTrailingPct p) (List.mem_map_of_mem trimTrailingPct hp)
  · intro k hk
    rcases h3 k hk with hk2 | hk2
    · exact Or.inl hk2
    · rcases List.mem_map.mp hk2 with ⟨p, hp, hpk⟩
      exact Or.inr ⟨p, hp, hpk.symm⟩
  · exact keysOf_map_filter e.byPath sid
  · exact keysOf_map_filter e.byDetail sid
  · exact mem_map_filter_not e.byPath sid
  · exact mem_map_filter_not e.byDetail sid

/-- A counterexample to C9 as stated: subscribing to the pure-wildcard
prefix "%" registers a node at the EMPTY prefix (the claim says tries
hold only the non-empty stripped prefixes), and unsubscribing the sole
subscriber of prefix "p" leaves the emptied bucket node in the trie
instead of removing it. -/
theorem c9_unsubscribe_trim_cex :
    (∃ e1, onNewSubscription c9E0 { id := "s1", pathPfxs := [[37]] } = some e1 ∧
        [] ∈ keysOf e1.byPath) ∧
    (∃ e2, onNewSubscription c9E0 { id := "s2", pathPfxs := [[112]] } = some e2 ∧
        (onDeleteSubscription e2 "s2").byPath = [([112], [])]) := by
  constructor
  · exact ⟨_, rfl, by decide⟩
  · exact ⟨_, rfl, by decide⟩

theorem c9_unsubscribe_trim_witness :
    ∃ e2, onNewSubscription c9E0 { id := "s3", pathPfxs := [[112, 37]] } = some e2 ∧
      trimTrailingPct [112, 37] ∈ keysOf e2.byPath ∧
      (∀ kv ∈ (onDeleteSubscription e2 "s3").byPath, "s3" ∉ kv.2) := by
  refine ⟨_, rfl, ?_, ?_⟩
  · exact (c9_unsubscribe_trim c9E0 "s3"
      { id := "s3", pathPfxs := [[112, 37]] } _ rfl).1 [112, 37] (by simp)
  · exact (c9_unsubscribe_trim _ "s3" { id := "s4", pathPfxs := [] } _ rfl).2.2.2.2.1

theorem setAdd_nodup {κ : Type} [BEq κ] [LawfulBEq κ] (s : List κ) (k : κ)
    (h : s.Nodup) : (setAdd s k).Nodup := by
  unfold setAdd
  split
  · exact h
  · rename_i hc
    have hk : k ∉ s := by simpa using hc
    simp [List.nodup_append, h, hk]

theorem evs_append_P (P : Ev → Prop) (evs : List Ev) (ev : Ev) (hevs : ∀ v ∈ evs, P v)
    (hev : P ev) : ∀ v ∈ evs ++ [ev], P v := by
  intro v hv
  rcases List.mem_append.mp hv with hv | hv
  · exact hevs v hv
  · rw [List.mem_singleton.mp hv]
    exact hev

theorem lookup_keyfix_map {κ α : Type} [BEq κ] [LawfulBEq κ] (k k2 : κ) (v : α)
    (h : (k == k2) = false) :
    ∀ m : List (κ × α),
      ((m.map (fun kv => if kv.1 == k2 then (k2, v) else kv)).lookup k) = m.lookup k := by
  intro m
  induction m with
  | nil => rfl
  | cons kv m ih =>
    obtain ⟨a, b⟩ := kv
    by_cases hk : (a == k2) = true
    · have ha : a = k2 := eq_of_beq hk
      subst ha
      rw [List.map_cons, if_pos hk]
      simp only [List.lookup, h]
      exact ih
    · have hk2 : (a == k2) = false := by simpa using hk
      rw [List.map_cons, if_neg (by simp [hk2])]
      simp only [List.lookup]
      cases hka : k == a
      · simp only [ih]
      · rfl

theorem lookup_append_single {κ α : Type} [BEq κ] (k k2 : κ) (v : α)
    (h : (k == k2) = false) :
    ∀ m : List (κ × α), ((m ++ [(k2, v)]).lookup k) = m.lookup k := by
  intro m
  induction m with
  | nil => simp [List.lookup, h]
  | cons kv m ih =>
    obtain ⟨a, b⟩ := kv
    cases hka : k == a
    · simp [List.lookup, hka, ih]
    · simp [List.lookup, hka]

theorem lookup_mapPut_ne {κ α : Type} [BEq κ] [LawfulBEq κ] (m : List (κ × α))
    (k k2 : κ) (v : α) (h : (k == k2) = false) :
    ((mapPut m k2 v).lookup k) = m.lookup k := by
  unfold mapPut
  split
  · exact lookup_keyfix_map k k2 v h m
  · exact lookup_append_single k k2 v h m

theorem notifyIdsUpd_inv (txSql : SQLState) (isDetail : Bool) (path : Bytes)
    (P : Ev → Prop) (hP : ∀ i p b, P (Ev.notifyUpdate i p b)) :
    ∀ (ids : List String) (e : EngineState) (u : ItemRawAny) (dirty : List String)
      (evs : List Ev) (r : EngineState × ItemRawAny × List String × List Ev),
      notifyIdsUpd txSql isDetail path e u dirty evs ids = some r →
      dirty.Nodup → (∀ v ∈ evs, P v) →
      r.2.2.1.Nodup ∧ ∀ v ∈ r.2.2.2, P v := by
  intro ids
  induction ids with
  | nil =>
    intro e u dirty evs r h hnd hevs
    simp only [notifyIdsUpd] at h
    cases h
    exact ⟨hnd, hevs⟩
  | cons sid rest ih =>
    intro e u dirty evs r h hnd hevs
    simp only [notifyIdsUpd] at h
    split at h
    · exact ih _ _ _ _ _ h hnd hevs
    · split at h
      · split at h
        · exact absurd h (by simp)
        · split at h
          · exact absurd h (by simp)
          · exact ih _ _ _ _ _ h hnd hevs
          · split at h
            · split at h
              · exact ih _ _ _ _ _ h hnd hevs
              · exact ih _ _ _ _ _ h (setAdd_nodup _ _ hnd)
                  (evs_append_P P _ _ hevs (hP _ _ _))
            all_goals exact ih _ _ _ _ _ h hnd hevs
      · exact ih _ _ _ _ _ h (setAdd_nodup _ _ hnd)
          (evs_append_P P _ _ hevs (hP _ _ _))

theorem notifyIdsDel_inv (isDetail : Bool) (path : Bytes) (P : Ev → Prop)
    (hP : ∀ i p b, P (Ev.notifyDelete i p b)) :
    ∀ (ids : List String) (e : EngineState) (dirty : List String) (evs : List Ev),
      dirty.Nodup → (∀ v ∈ evs, P v) →
      (notifyIdsDel isDetail path e dirty evs ids).2.1.Nodup ∧
      ∀ v ∈ (notifyIdsDel isDetail path e dirty evs ids).2.2, P v := by
  intro ids
  induction ids with
  | nil =>
    intro e dirty evs hnd hevs
    exact ⟨hnd, hevs⟩
  | cons sid rest ih =>
    intro e dirty evs hnd hevs
    simp only [notifyIdsDel]
    split
    · exact ih _ _ _ hnd hevs
    · exact ih _ _ _ (setAdd_nodup _ _ hnd) (evs_append_P P _ _ hevs (hP _ _ _))

theorem notifyPathsUpd_inv (txSql : SQLState) (isDetail : Bool) (P : Ev → Prop)
    (hP : ∀ i p b, P (Ev.notifyUpdate i p b)) :
    ∀ (ups : List (Bytes × ItemRawAny)) (e : EngineState) (dirty : List String)
      (evs : List Ev) (r : EngineState × List (Bytes × ItemRawAny) × List String × List Ev),
      notifyPathsUpd txSql isDetail e ups dirty evs = some r →
      dirty.Nodup → (∀ v ∈ evs, P v) →
      r.2.2.1.Nodup ∧ ∀ v ∈ r.2.2.2, P v := by
  intro ups
  induction ups with
  | nil =>
    intro e dirty evs r h hnd hevs
    simp only [notifyPathsUpd] at h
    cases h
    exact ⟨hnd, hevs⟩
  | cons pu rest ih =>
    intro e dirty evs r h hnd hevs
    obtain ⟨p, u⟩ := pu
    simp only [notifyPathsUpd] at h
    split at h
    · exact absurd h (by simp)
    · rename_i hres
      obtain ⟨hnd1, hev1⟩ :=
        notifyIdsUpd_inv txSql isDetail p P hP _ _ _ _ _ _ hres hnd hevs
      split at h
      · exact absurd h (by simp)
      · rename_i hres2
        obtain ⟨hnd2, hev2⟩ := ih _ _ _ _ hres2 hnd1 hev1
        cases h
        exact ⟨hnd2, hev2⟩

theorem notifyPathsDel_inv (isDetail : Bool) (P : Ev → Prop)
    (hP : ∀ i p b, P (Ev.notifyDelete i p b)) :
    ∀ (dels : List Bytes) (e : EngineState) (dirty : List String) (evs : List Ev),
      dirty.Nodup → (∀ v ∈ evs, P v) →
      (notifyPathsDel isDetail e dels dirty evs).2.1.Nodup ∧
      ∀ v ∈ (notifyPathsDel isDetail e dels dirty evs).2.2, P v := by
  intro dels
  induction dels with
  | nil =>
    intro e dirty evs hnd hevs
    exact ⟨hnd, hevs⟩
  | cons p rest ih =>
    intro e dirty evs hnd hevs
    simp only [notifyPathsDel]
    obtain ⟨hnd1, hev1⟩ := notifyIdsDel_inv isDetail p P hP _ e dirty evs hnd hevs
    exact ih _ _ _ hnd1 hev1

theorem notifySubscribersM_inv (txSql : SQLState) (isDetail : Bool) (P : Ev → Prop)
    (hPu : ∀ i p b, P (Ev.notifyUpdate i p b))
    (hPd : ∀ i p b, P (Ev.notifyDelete i p b))
    (e : EngineState) (ups : List (Bytes × ItemRawAny)) (dels : List Bytes)
    (dirty : List String) (evs : List Ev)
    (r : EngineState × List (Bytes × ItemRawAny) × List String × List Ev)
    (h : notifySubscribersM txSql isDetail e ups dels dirty evs = some r)
    (hnd : dirty.Nodup) (hevs : ∀ v ∈ evs, P v) :
    r.2.2.1.Nodup ∧ ∀ v ∈ r.2.2.2, P v := by
  unfold notifySubscribersM at h
  split at h
  · exact absurd h (by simp)
  · rename_i hres
    obtain ⟨hnd1, hev1⟩ := notifyPathsUpd_inv txSql isDetail P hPu _ _ _ _ _ hres hnd hevs
    cases h
    exact notifyPathsDel_inv isDetail P hPd _ _ _ _ hnd1 hev1

theorem runPasses_inv (e : EngineState) (t : TxState)
    (r : EngineState × List (Bytes × ItemRawAny) × List String × List Ev)
    (h : runPasses e t = some r) :
    r.2.2.1.Nodup ∧ ∀ v ∈ r.2.2.2, isFlushEv v = false ∧ isCommitEv v = false := by
  unfold runPasses at h
  split at h
  · exact absurd h (by simp)
  · rename_i hres
    have h1 := notifySubscribersM_inv t.sql false
      (fun v => isFlushEv v = false ∧ isCommitEv v = false)
      (fun i p b => by simp [isFlushEv, isCommitEv])
      (fun i p b => by simp [isFlushEv, isCommitEv])
      _ _ _ _ _ _ hres List.nodup_nil (by simp)
    exact notifySubscribersM_inv t.sql true _
      (fun i p b => by simp [isFlushEv, isCommitEv])
      (fun i p b => by simp [isFlushEv, isCommitEv])
      _ _ _ _ _ _ h h1.1 h1.2

theorem runFlushes_trace : ∀ (l : List String) (e : EngineState), l.Nodup →
    (runFlushes e l).2 = l.filterMap (fun sid =>
      match e.subsById.lookup sid with
      | none => none
      | some s => if csNonempty s then
          some (Ev.onUpdateCall s.id s.csUpdates s.csDeletes) else none) := by
  intro l
  induction l with
  | nil => intro e _; rfl
  | cons sid rest ih =>
    intro e hnd
    have hsid : sid ∉ rest := (List.nodup_cons.mp hnd).1
    have hrest : rest.Nodup := (List.nodup_cons.mp hnd).2
    cases hlk : e.subsById.lookup sid with
    | none =>
      have h1 : (runFlushes e (sid :: rest)).2 = (runFlushes e rest).2 := by
        simp only [runFlushes, hlk]
      rw [h1]
      simp only [List.filterMap_cons, hlk]
      exact ih e hrest
    | some s =>
      have h1 : (runFlushes e (sid :: rest)).2
          = (subFlush s).2
            ++ (runFlushes { e with subsById := mapPut e.subsById sid (subFlush s).1 } rest).2 := by
        simp only [runFlushes, hlk]
      rw [h1, ih _ hrest]
      have hcong : (rest.filterMap (fun sid2 =>
          match List.lookup sid2
              ({ e with subsById := mapPut e.subsById sid (subFlush s).1 } : EngineState).subsById with
          | none => none
          | some s2 => if csNonempty s2 then
              some (Ev.onUpdateCall s2.id s2.csUpdates s2.csDeletes) else none))
          = rest.filterMap (fun sid2 =>
          match e.subsById.lookup sid2 with
          | none => none
          | some s2 => if csNonempty s2 then
              some (Ev.onUpdateCall s2.id s2.csUpdates s2.csDeletes) else none) := by
        apply List.filterMap_congr
        intro x hx
        have hne : (x == sid) = false := by
          simp only [beq_eq_false_iff_ne, ne_eq]
          intro hxe
          exact hsid (hxe ▸ hx)
        show (match (mapPut e.subsById sid (subFlush s).1).lookup x with
          | none => none
          | some s2 => if csNonempty s2 then
              some (Ev.onUpdateCall s2.id s2.csUpdates s2.csDeletes) else none) = _
        rw [lookup_mapPut_ne _ _ _ _ hne]
      rw [hcong, List.filterMap_cons, hlk]
      cases hcs : csNonempty s
      · simp [subFlush, hcs]
      · simp [subFlush, hcs]

/-- C5: corrected.  For every commit request the event loop processes
without panicking, the trace is: the two notification passes' events,
then the change-set flushes, and the SQL commit (doCommit) LAST — after
the flushes, not before them as claimed.  The rest of the claim holds:
the dirty set collects each notified subscription once, and the flush
section delivers exactly one OnUpdate call, carrying the accumulated
ChangeSet, for each dirty subscription whose change-set is non-empty —
empty change-sets are never flushed. -/
theorem c5_commit_after_flushes (e : EngineState) (t : TxState)
    (e2 : EngineState) (ups : List (Bytes × ItemRawAny)) (dirty : List String)
    (passEvs : List Ev)
    (h : runPasses e t = some (e2, ups, dirty, passEvs)) :
    processCommit e t
      = some ({ (runFlushes e2 dirty).1 with committed := t.sql }, dirty,
          passEvs ++ (runFlushes e2 dirty).2 ++ [Ev.sqlCommit]) ∧
    dirty.Nodup ∧
    (∀ v ∈ passEvs, isFlushEv v = false ∧ isCommitEv v = false) ∧
    (runFlushes e2 dirty).2 = dirty.filterMap (fun sid =>
      match e2.subsById.lookup sid with
      | none => none
      | some s => if csNonempty s then
          some (Ev.onUpdateCall s.id s.csUpdates s.csDeletes) else none) ∧
    (∀ v ∈ (runFlushes e2 dirty).2, isFlushEv v = true ∧ isCommitEv v = false) := by
  have hinv := runPasses_inv e t _ h
  refine ⟨?_, hinv.1, hinv.2, ?_, ?_⟩
  · unfold processCommit
    rw [h]
  · exact runFlushes_trace dirty e2 hinv.1
  · intro v hv
    rw [runFlushes_trace dirty e2 hinv.1] at hv
    rcases List.mem_filterMap.mp hv with ⟨sid, _, hfx⟩
    split at hfx
    · exact absurd hfx (by simp)
    · split at hfx
      · cases hfx
        exact ⟨rfl, rfl⟩
      · exact absurd hfx (by simp)

/-- A counterexample to C5 as stated: one subscriber at prefix "p", one
put of "p1" in the transaction.  The processed commit's trace holds a
flush (OnUpdate delivery) and it precedes the SQL commit, so "commit ...
before any subscriber's coalesced change-set is flushed" fails. -/
theorem c5_commit_after_flushes_cex :
    ∃ t1 r, txPut c5T0 [112, 49] (some (.str [48])) none [] true = .ok t1 ∧
      processCommit c5E1 t1 = some r ∧
      (r.2.2.filter isFlushEv).length = 1 ∧
      ¬ commitsPrecedeFlushes r.2.2 := by
  refine ⟨_, _, rfl, rfl, ?_, ?_⟩
  · decide
  · unfold commitsPrecedeFlushes
    decide

theorem c5_commit_after_flushes_witness :
    txPut c5T0 [112, 49] (some (.str [48])) none [] true = .ok c5T1 ∧
    ∃ e2 ups dirty passEvs,
      runPasses c5E1 c5T1 = some (e2, ups, dirty, passEvs) ∧
      processCommit c5E1 c5T1
        = some ({ (runFlushes e2 dirty).1 with committed := c5T1.sql }, dirty,
            passEvs ++ (runFlushes e2 dirty).2 ++ [Ev.sqlCommit]) ∧
      dirty.Nodup := by
  refine ⟨rfl, _, _, _, _, rfl, ?_, ?_⟩
  · exact (c5_commit_after_flushes c5E1 c5T1 _ _ _ _ rfl).1
  · exact (c5_commit_after_flushes c5E1 c5T1 _ _ _ _ rfl).2.1

end Pathdb
